import Mathlib

/-!
# Verification of the FluidNC homing subsystem (src/FluidNC/src/Machine/Homing.cpp)

Shallow embedding of the homing phase planner (`plan_move`), the cycle
runner (`run`), the squaring test (`needsPulloff2`), the per-cycle phase
sequencer (`run_one_cycle`) and the orchestrator (`run_cycles` /
`axis_mask_from_cycle`).  Machine floats become rationals, bit masks become
`Nat` bit-sets, the global `_approach` flag and the realtime flags are
threaded explicitly, and external side effects (planner submission, stepper
control, settle delay, motor blocking, step-count zeroing) are recorded as
data in the result structures.
-/

namespace FluidNC

/-- Motor masks: 32-bit style bit-set, low 16 bits = motor 0 of each axis,
high 16 bits = motor 1 (`MOTOR0 = 0xffff`, `MOTOR1 = 0xffff0000`). -/
abbrev MotorMask := Nat

/-- Axis masks: one bit per axis. -/
abbrev AxisMask := Nat

/-- Model of `Machine::Axes::motor_bit(axis, motor)`: bit position of a motor. -/
def motor_bit (axis motor : Nat) : Nat :=
  if motor = 0 then axis else axis + 16

/-- Model of `bitnum_is_true(mask, bit)` from NutsBolts. -/
def bitnum_is_true (mask bit : Nat) : Bool :=
  mask.testBit bit

/-- Model of `set_bitnum(mask, bit)` from NutsBolts. -/
def set_bitnum (mask bit : Nat) : Nat :=
  mask ||| (1 <<< bit)

/-- Model of `clear_bits(mask, bits)` from NutsBolts: clear from `mask` every bit set
in `bits`.  (`m &&& bits` is a bitwise subset of `m`, so subtraction clears
exactly those bits.) -/
def clear_bits (mask bits : Nat) : Nat :=
  mask - (mask &&& bits)

/-- An axis participates in a homing move when at least one of its motor
bits is set (the negation of the `continue` test in `plan_move`). -/
def axisActive (motors : MotorMask) (axis : Nat) : Bool :=
  bitnum_is_true motors (motor_bit axis 0) || bitnum_is_true motors (motor_bit axis 1)

/-- Per-axis homing configuration (the `_homing` sub-object of an axis). -/
structure HomingCfg where
  settle_ms : Nat
  seekRate : ℚ
  feedRate : ℚ
  seek_scaler : ℚ
  feed_scaler : ℚ
  positiveDirection : Bool
  cycle : Nat
  mpos : ℚ
deriving Repr, DecidableEq

/-- Per-axis configuration.  `commonPulloff`/`extraPulloff` are the values
returned by the accessors of the Axis configuration object (the smaller of
the two motor pull-offs, and the signed difference `motor1 - motor0`).
`hasHoming` models whether the `_homing` pointer is non-null (checked by
`axis_mask_from_cycle`); callers of `plan_move` guarantee it for active
axes via the homing mask. -/
structure AxisCfg where
  maxTravel : ℚ
  commonPulloff : ℚ
  extraPulloff : ℚ
  hasHoming : Bool
  homing : HomingCfg
deriving Repr, DecidableEq

/-- The machine's axis configuration (`config->_axes`), together with the
two operations of the Axes collaborator that homing uses:
`homingMask` (the axes configured for homing) and `motorsOf`
(the `MotorMask` returned by `set_homing_mode(axisMask, true)`). -/
structure AxesCfg where
  numberAxis : Nat
  axis : Nat → AxisCfg
  homingMask : AxisMask
  motorsOf : AxisMask → MotorMask

/-- The six homing phases. -/
inductive HomingPhase where
  | PrePulloff
  | FastApproach
  | Pulloff0
  | SlowApproach
  | Pulloff1
  | Pulloff2
deriving Repr, DecidableEq

/-- The per-phase rate/travel selection and motor blocking of the `switch`
in `plan_move` (Homing.cpp lines 72-97).  `blocked = some m` records the
`_motors[m]->block()` call made for the Pulloff2 phase. -/
structure PhasePick where
  axis_rate : ℚ
  travel : ℚ
  blocked : Option Nat
deriving Repr, DecidableEq

/-- The `switch (phase)` body of `plan_move` for one axis. -/
def pickPhase (phase : HomingPhase) (a : AxisCfg) : PhasePick :=
  match phase with
  | .FastApproach => ⟨a.homing.seekRate, a.maxTravel, none⟩
  | .PrePulloff => ⟨a.homing.feedRate, a.commonPulloff, none⟩
  | .SlowApproach => ⟨a.homing.feedRate, a.commonPulloff, none⟩
  | .Pulloff0 => ⟨a.homing.feedRate, a.commonPulloff, none⟩
  | .Pulloff1 => ⟨a.homing.feedRate, a.commonPulloff, none⟩
  | .Pulloff2 =>
    let travel := a.extraPulloff
    if travel < 0 then
      ⟨a.homing.feedRate, -travel, some 1⟩
    else if travel > 0 then
      ⟨a.homing.feedRate, travel, some 0⟩
    else
      ⟨a.homing.feedRate, travel, none⟩

/-- Working state of the first loop of `plan_move`.  `target` holds the
per-axis target vector (initialised from `get_mpos()`), `rates` the local
`rates[]` array, `zeroedSteps` the axes for which `set_motor_steps(axis, 0)`
was called, and `blocked` the `(axis, motor)` pairs blocked from stepping. -/
structure PlanState where
  maxSeekTime : ℚ
  limitingRate : ℚ
  settle : Nat
  rateSq : ℚ
  axesMask : AxisMask
  target : Nat → ℚ
  rates : Nat → ℚ
  blocked : List (Nat × Nat)
  zeroedSteps : AxisMask

/-- The body of the first `for (axis ...)` loop of `plan_move` for one
axis index. -/
def planAxis (cfg : AxesCfg) (motors : MotorMask) (phase : HomingPhase)
    (approach : Bool) (s : PlanState) (axis : Nat) : PlanState :=
  if axisActive motors axis then
    let a := cfg.axis axis
    let h := a.homing
    let p := pickPhase phase a
    let seekTime := p.travel / p.axis_rate
    { maxSeekTime := if seekTime > s.maxSeekTime then seekTime else s.maxSeekTime
      limitingRate := if seekTime > s.maxSeekTime then p.axis_rate else s.limitingRate
      settle := max s.settle h.settle_ms
      rateSq := s.rateSq + p.axis_rate * p.axis_rate
      axesMask := set_bitnum s.axesMask axis
      target := fun i =>
        if i = axis then (if Bool.xor h.positiveDirection approach then -p.travel else p.travel)
        else s.target i
      rates := fun i => if i = axis then p.axis_rate else s.rates i
      blocked := match p.blocked with
        | some m => s.blocked ++ [(axis, m)]
        | none => s.blocked
      zeroedSteps := set_bitnum s.zeroedSteps axis }
  else
    s

/-- The second loop of `plan_move`: scale the time-domain target vector
back to positions, applying the fudge factor and, for FastApproach, the
`rates[axis] / limitingRate` proportioning. -/
def scaleTarget (cfg : AxesCfg) (phase : HomingPhase) (approach : Bool)
    (s : PlanState) (i : Nat) : ℚ :=
  if bitnum_is_true s.axesMask i then
    let h := (cfg.axis i).homing
    let seeking := phase = HomingPhase.FastApproach
    let scaler := if approach then (if seeking then h.seek_scaler else h.feed_scaler) else 1
    let t := s.target i * scaler
    if phase = HomingPhase.FastApproach then t * (s.rates i / s.limitingRate) else t
  else
    s.target i

/-- Result of `plan_move`.  `feedRateSq` is the accumulated sum of squared
per-axis rates; the feed rate submitted to `plan_buffer_line` is
`sqrtf(feedRateSq)`.  `settle` is the returned settle time; `target` the
submitted position vector; `blocked` and `zeroedSteps` record the side
effects on the motor objects. -/
structure PlanResult where
  settle : Nat
  feedRateSq : ℚ
  target : Nat → ℚ
  rates : Nat → ℚ
  limitingRate : ℚ
  maxSeekTime : ℚ
  axesMask : AxisMask
  blocked : List (Nat × Nat)
  zeroedSteps : AxisMask

/-- Initial `PlanState` of `plan_move`: accumulators zeroed, target vector
initialised from the live machine position `get_mpos()`. -/
def planInit (mpos : Nat → ℚ) : PlanState :=
  { maxSeekTime := 0
    limitingRate := 0
    settle := 0
    rateSq := 0
    axesMask := 0
    target := mpos
    rates := fun _ => 0
    blocked := []
    zeroedSteps := 0 }

/-- Model of `Homing::plan_move(motors, phase)` (Homing.cpp lines 39-152).  The
global `_approach` flag it reads is passed explicitly.  `mpos` is the
machine position array returned by `get_mpos()`. -/
def plan_move (cfg : AxesCfg) (mpos : Nat → ℚ) (motors : MotorMask)
    (phase : HomingPhase) (approach : Bool) : PlanResult :=
  let s := (List.range cfg.numberAxis).foldl (planAxis cfg motors phase approach) (planInit mpos)
  { settle := s.settle
    feedRateSq := s.rateSq
    target := scaleTarget cfg phase approach s
    rates := s.rates
    limitingRate := s.limitingRate
    maxSeekTime := s.maxSeekTime
    axesMask := s.axesMask
    blocked := s.blocked
    zeroedSteps := s.zeroedSteps }

/-- Model of `Homing::needsPulloff2(motors)` (Homing.cpp lines 220-241).  The local
`squaredAxes = motors & (motors >> 16)` is written out at both of its two
uses. -/
def needsPulloff2 (cfg : AxesCfg) (motors : MotorMask) : Bool :=
  if motors &&& (motors >>> 16) = 0 then
    false
  else
    (List.range cfg.numberAxis).any fun axis =>
      bitnum_is_true (motors &&& (motors >>> 16)) axis &&
        decide ((cfg.axis axis).extraPulloff ≠ 0)

/-- The realtime alarms thrown by `Homing::run`. -/
inductive ExecAlarm where
  | HomingFailReset
  | HomingFailDoor
  | HomingFailApproach
  | HomingFailPulloff
deriving Repr, DecidableEq

/-- The realtime flags (`rtStatusReport`, `rtReset`, `rtSafetyDoor`,
`rtCycleStop`) as read and cleared by the homing loop. -/
structure RTFlags where
  statusReport : Bool
  reset : Bool
  safetyDoor : Bool
  cycleStop : Bool
deriving Repr, DecidableEq

/-- What the asynchronous environment does during one iteration of the
polling loop: which realtime flags it newly sets (OR-ed into the current
flag state) and the live values of `posLimitMask`/`negLimitMask`. -/
structure RTInput where
  statusReport : Bool
  reset : Bool
  safetyDoor : Bool
  cycleStop : Bool
  posLimitMask : MotorMask
  negLimitMask : MotorMask
deriving Repr, DecidableEq

/-- Flags visible at the start of an iteration: carried state OR-ed with
the flags the environment set since the last read. -/
def mergeFlags (f : RTFlags) (env : RTInput) : RTFlags :=
  { statusReport := f.statusReport || env.statusReport
    reset := f.reset || env.reset
    safetyDoor := f.safetyDoor || env.safetyDoor
    cycleStop := f.cycleStop || env.cycleStop }

/-- State threaded through the polling loop of `Homing::run`:
`remainingMotors`, the realtime flags, and the global `_approach` flag. -/
structure LoopState where
  motors : MotorMask
  flags : RTFlags
  approach : Bool
deriving Repr, DecidableEq

/-- One iteration of the `do { ... } while (remainingMotors)` loop of
`Homing::run` (Homing.cpp lines 172-213).  Returns `.error (alarm, flags)`
when the body throws, with the realtime-flag state at the throw;
otherwise the updated loop state. -/
def runIter (env : RTInput) (s : LoopState) : Except (ExecAlarm × RTFlags) LoopState :=
  let motors :=
    if s.approach then clear_bits s.motors (env.posLimitMask ||| env.negLimitMask)
    else s.motors
  let f0 := mergeFlags s.flags env
  let f1 := if f0.statusReport then { f0 with statusReport := false } else f0
  if f1.reset then
    .error (ExecAlarm.HomingFailReset, f1)
  else if f1.safetyDoor then
    .error (ExecAlarm.HomingFailDoor, f1)
  else if f1.cycleStop then
    let f2 := { f1 with cycleStop := false }
    if s.approach then
      .error (ExecAlarm.HomingFailApproach, f2)
    else if (env.posLimitMask ||| env.negLimitMask) &&& motors ≠ 0 then
      .error (ExecAlarm.HomingFailPulloff, f2)
    else
      .ok { motors := 0, flags := f2, approach := s.approach }
  else
    .ok { motors := motors, flags := f1, approach := s.approach }

/-- Outcome of the polling loop.  `.finished` = `remainingMotors` reached
zero and the loop exited normally; `.alarm` = the body threw; `.starved` =
the modelled input sequence ran out while motors remained (the real loop
would keep polling). -/
inductive LoopOutcome where
  | finished (flags : RTFlags)
  | alarm (a : ExecAlarm) (flags : RTFlags)
  | starved (s : LoopState)
deriving Repr, DecidableEq

/-- The whole `do ... while (remainingMotors)` loop, driven by a list of
per-iteration environment inputs. -/
def runLoop (s : LoopState) : List RTInput → LoopOutcome
  | [] => .starved s
  | env :: rest =>
    match runIter env s with
    | .error (a, f) => .alarm a f
    | .ok s' => if s'.motors = 0 then .finished s'.flags else runLoop s' rest

/-- How `Homing::run` ends.  `.earlyReturn`: one of the two early returns
(no motors, or PrePulloff with no triggered switch) — no move issued.
`.normal settle`: the loop exited, `Stepper::reset()` force-stopped and
flushed the stepper, and `delay_ms(settle)` was performed before return.
`.alarmed a`: the loop threw alarm `a`.  `.starved`: the modelled inputs
ran out. -/
inductive RunOutcome where
  | earlyReturn
  | normal (settle : Nat)
  | alarmed (a : ExecAlarm)
  | starved
deriving Repr, DecidableEq

/-- Result of `Homing::run`: the outcome, the final value of the global
`_approach` flag, the realtime flags on exit, and the move that was
planned (if the early returns were not taken). -/
structure RunResult where
  outcome : RunOutcome
  approach : Bool
  flags : RTFlags
  plan : Option PlanResult

/-- The value `run` assigns to `_approach` at phase entry. -/
def approachOf (phase : HomingPhase) : Bool :=
  phase = HomingPhase.FastApproach || phase = HomingPhase.SlowApproach

/-- Model of `Homing::run(remainingMotors, phase)` (Homing.cpp lines 154-218).
`approach0`/`flags0` are the global `_approach` flag and realtime flags at
entry, `limits0` the live `posLimitMask | negLimitMask` read by the
PrePulloff skip test, `mpos` the machine position read by `plan_move`, and
`envs` the environment of the successive loop iterations. -/
def run (cfg : AxesCfg) (mpos : Nat → ℚ) (approach0 : Bool) (flags0 : RTFlags)
    (limits0 : MotorMask) (motors : MotorMask) (phase : HomingPhase)
    (envs : List RTInput) : RunResult :=
  if motors = 0 then
    { outcome := .earlyReturn, approach := approach0, flags := flags0, plan := none }
  else if phase = HomingPhase.PrePulloff ∧ limits0 &&& motors = 0 then
    { outcome := .earlyReturn, approach := approach0, flags := flags0, plan := none }
  else
    let approach := approachOf phase
    let pr := plan_move cfg mpos motors phase approach
    match runLoop { motors := motors, flags := flags0, approach := approach } envs with
    | .finished f => { outcome := .normal pr.settle, approach := false, flags := f, plan := some pr }
    | .alarm a f => { outcome := .alarmed a, approach := approach, flags := f, plan := some pr }
    | .starved s => { outcome := .starved, approach := approach, flags := s.flags, plan := some pr }

/-- Per-phase environment for one homing cycle: the machine position read
at each phase's `plan_move`, the live limit mask at each phase's
PrePulloff test, and the loop inputs of each phase. -/
structure CycleEnv where
  mposAt : HomingPhase → Nat → ℚ
  limitsAt : HomingPhase → MotorMask
  inputs : HomingPhase → List RTInput

/-- Run a list of phases in order with the given motors, threading the
`_approach` flag and realtime flags, stopping at the first phase whose
`run` throws (the `catch` in `run_one_cycle`) or starves.  Returns the
phases for which `run` was invoked, the final `_approach` and flag state,
the alarm caught (if any), and whether the model starved. -/
def runPhases (cfg : AxesCfg) (env : CycleEnv) (motors : MotorMask) :
    List HomingPhase → Bool → RTFlags →
    List HomingPhase × Bool × RTFlags × Option ExecAlarm × Bool
  | [], ap, f => ([], ap, f, none, false)
  | p :: ps, ap, f =>
    let r := run cfg (env.mposAt p) ap f (env.limitsAt p) motors p (env.inputs p)
    match r.outcome with
    | .alarmed a => ([p], r.approach, r.flags, some a, false)
    | .starved => ([p], r.approach, r.flags, none, true)
    | _ =>
      let rest := runPhases cfg env motors ps r.approach r.flags
      (p :: rest.1, rest.2)

/-- Result of `run_one_cycle`: which phases were attempted, the final
`_approach` flag, the realtime flags, the alarm recorded in `rtAlarm` on
the catch path, and whether the model ran out of inputs. -/
structure CycleResult where
  phasesRun : List HomingPhase
  approach : Bool
  flags : RTFlags
  alarm : Option ExecAlarm
  stuck : Bool

/-- The fixed phase sequence of `run_one_cycle` (Homing.cpp lines
292-307): the five unconditional phases, plus Pulloff2 when
`needsPulloff2(motors)` holds.  (In the source `needsPulloff2` is
evaluated after Pulloff1 succeeds; it is a pure function of the
configuration and `motors`, so evaluating it up front is equivalent.) -/
def phaseSequence (cfg : AxesCfg) (motors : MotorMask) : List HomingPhase :=
  [HomingPhase.PrePulloff, HomingPhase.FastApproach, HomingPhase.Pulloff0,
   HomingPhase.SlowApproach, HomingPhase.Pulloff1] ++
    (if needsPulloff2 cfg motors then [HomingPhase.Pulloff2] else [])

/-- Model of `Homing::run_one_cycle(axisMask)` (Homing.cpp lines 286-319).
`set_homing_mode(axisMask, true)` is modelled by `cfg.motorsOf`.  The
catch block records the alarm and performs external cleanup
(`set_homing_mode(false)`, `mc_reset`, `protocol_execute_realtime`); note
that it does not touch the `_approach` flag. -/
def run_one_cycle (cfg : AxesCfg) (env : CycleEnv) (ap0 : Bool) (f0 : RTFlags)
    (axisMask : AxisMask) : CycleResult :=
  let am := axisMask &&& cfg.homingMask
  let motors := cfg.motorsOf am
  let r := runPhases cfg env motors (phaseSequence cfg motors) ap0 f0
  { phasesRun := r.1, approach := r.2.1, flags := r.2.2.1,
    alarm := r.2.2.2.1, stuck := r.2.2.2.2 }

/-- Model of `Homing::axis_mask_from_cycle(cycle)` (Homing.cpp lines 351-362). -/
def axis_mask_from_cycle (cfg : AxesCfg) (cycle : Nat) : AxisMask :=
  (List.range cfg.numberAxis).foldl
    (fun m axis =>
      let a := cfg.axis axis
      if a.hasHoming && a.homing.cycle = cycle then set_bitnum m axis else m)
    0

/-- Modelled from the spec: the loop bound `MAX_N_AXIS` of `run_cycles`
("iterate cycle numbers from 1 up to the maximum number of axes") is a
constant from Config.h, which is not among the provided sources; FluidNC
supports at most 6 axes. -/
def MAX_N_AXIS : Nat := 6

/-- Result of the all-cycles branch of `run_cycles`: which cycle numbers
were actually run as a cycle, the final `someAxisHomed` flag, whether the
loop returned early because `sys.state` was `Alarm`, whether the
"No homing cycles defined" alarm was raised, and the final alarm state. -/
structure OrchResult where
  cyclesRun : List Nat
  someAxisHomed : Bool
  earlyReturn : Bool
  noCyclesAlarm : Bool
  stateAlarm : Bool

/-- The `for (cycle = 1; cycle <= MAX_N_AXIS; cycle++)` loop of
`run_cycles` (Homing.cpp lines 330-343), with `rem` iterations remaining,
current cycle number `cycle`, the running `someAxisHomed` flag and the
current alarm state of `sys.state`.  `fails c` abstracts whether the
`run_one_cycle` invocation for cycle `c` fails (its alarm is processed by
`protocol_execute_realtime`, leaving `sys.state` in `Alarm`).  Returns
(cycles run, someAxisHomed, alarm state, returned early). -/
def cyclesLoop (cfg : AxesCfg) (fails : Nat → Bool) :
    Nat → Nat → Bool → Bool → List Nat × Bool × Bool × Bool
  | 0, _, someHomed, alarm => ([], someHomed, alarm, false)
  | rem + 1, cycle, someHomed, alarm =>
    if alarm then
      ([], someHomed, alarm, true)
    else
      let am := axis_mask_from_cycle cfg cycle
      if am ≠ 0 then
        let r := cyclesLoop cfg fails rem (cycle + 1) true (fails cycle)
        (cycle :: r.1, r.2)
      else
        cyclesLoop cfg fails rem (cycle + 1) someHomed alarm

/-- The `axisMask == AllCycles` branch of `Homing::run_cycles`
(Homing.cpp lines 326-348).  `alarm0` is whether `sys.state` is already
`Alarm` at entry. -/
def run_cycles_all (cfg : AxesCfg) (fails : Nat → Bool) (alarm0 : Bool) : OrchResult :=
  let r := cyclesLoop cfg fails MAX_N_AXIS 1 false alarm0
  let noCyc := !r.2.2.2 && !r.2.1
  { cyclesRun := r.1, someAxisHomed := r.2.1, earlyReturn := r.2.2.2,
    noCyclesAlarm := noCyc, stateAlarm := r.2.2.1 || noCyc }

/-- Prefix of a list through its first element on which `fails` holds:
the cycles actually executed when a failure aborts the rest. -/
def takeThroughFail (fails : Nat → Bool) : List Nat → List Nat
  | [] => []
  | c :: cs => if fails c then [c] else c :: takeThroughFail fails cs

/-! ## Characterization of the first loop of `plan_move` -/

/-- The rate chosen for axis `j` in the given phase. -/
def rval (cfg : AxesCfg) (phase : HomingPhase) (j : Nat) : ℚ :=
  (pickPhase phase (cfg.axis j)).axis_rate

/-- The provisional (time-domain) target written for axis `j` by the
first loop: `travel`, negated when `positiveDirection ^ _approach`. -/
def tval (cfg : AxesCfg) (phase : HomingPhase) (approach : Bool) (j : Nat) : ℚ :=
  if Bool.xor (cfg.axis j).homing.positiveDirection approach then
    -(pickPhase phase (cfg.axis j)).travel
  else
    (pickPhase phase (cfg.axis j)).travel

/-- The per-axis seek time `travel / rate` compared by the first loop. -/
def stime (cfg : AxesCfg) (phase : HomingPhase) (j : Nat) : ℚ :=
  (pickPhase phase (cfg.axis j)).travel / (pickPhase phase (cfg.axis j)).axis_rate

theorem testBit_set_bitnum (m b j : Nat) :
    (set_bitnum m b).testBit j = (m.testBit j || decide (j = b)) := by
  simp only [set_bitnum, Nat.testBit_or, Nat.one_shiftLeft, Nat.testBit_two_pow]
  by_cases h : j = b
  · subst h; simp
  · simp [h, Ne.symm h]

theorem planAxis_target (cfg : AxesCfg) (motors : MotorMask) (phase : HomingPhase)
    (approach : Bool) (s : PlanState) (a j : Nat) :
    (planAxis cfg motors phase approach s a).target j =
      if j = a ∧ axisActive motors a = true then tval cfg phase approach a
      else s.target j := by
  unfold planAxis tval
  by_cases ha : axisActive motors a
  · simp only [ha, if_true]
    by_cases hja : j = a
    · subst hja; simp
    · simp [hja]
  · simp only [Bool.not_eq_true] at ha
    simp [ha]

theorem planAxis_rates (cfg : AxesCfg) (motors : MotorMask) (phase : HomingPhase)
    (approach : Bool) (s : PlanState) (a j : Nat) :
    (planAxis cfg motors phase approach s a).rates j =
      if j = a ∧ axisActive motors a = true then rval cfg phase a
      else s.rates j := by
  unfold planAxis rval
  by_cases ha : axisActive motors a
  · simp only [ha, if_true]
    by_cases hja : j = a
    · subst hja; simp
    · simp [hja]
  · simp only [Bool.not_eq_true] at ha
    simp [ha]

theorem planAxis_rateSq (cfg : AxesCfg) (motors : MotorMask) (phase : HomingPhase)
    (approach : Bool) (s : PlanState) (a : Nat) :
    (planAxis cfg motors phase approach s a).rateSq =
      if axisActive motors a = true then s.rateSq + rval cfg phase a * rval cfg phase a
      else s.rateSq := by
  unfold planAxis rval
  by_cases ha : axisActive motors a
  · simp [ha]
  · simp only [Bool.not_eq_true] at ha
    simp [ha]

theorem planAxis_axesMask (cfg : AxesCfg) (motors : MotorMask) (phase : HomingPhase)
    (approach : Bool) (s : PlanState) (a j : Nat) :
    (planAxis cfg motors phase approach s a).axesMask.testBit j =
      (s.axesMask.testBit j || (decide (j = a) && axisActive motors a)) := by
  unfold planAxis
  by_cases ha : axisActive motors a
  · simp only [ha, if_true]
    show (set_bitnum s.axesMask a).testBit j = _
    rw [testBit_set_bitnum]
    simp [ha]
  · simp only [Bool.not_eq_true] at ha
    simp [ha]

theorem planAxis_zeroedSteps (cfg : AxesCfg) (motors : MotorMask) (phase : HomingPhase)
    (approach : Bool) (s : PlanState) (a j : Nat) :
    (planAxis cfg motors phase approach s a).zeroedSteps.testBit j =
      (s.zeroedSteps.testBit j || (decide (j = a) && axisActive motors a)) := by
  unfold planAxis
  by_cases ha : axisActive motors a
  · simp only [ha, if_true]
    show (set_bitnum s.zeroedSteps a).testBit j = _
    rw [testBit_set_bitnum]
    simp [ha]
  · simp only [Bool.not_eq_true] at ha
    simp [ha]

theorem fold_target (cfg : AxesCfg) (motors : MotorMask) (phase : HomingPhase)
    (approach : Bool) (l : List Nat) (s : PlanState) (j : Nat) :
    (l.foldl (planAxis cfg motors phase approach) s).target j =
      if j ∈ l ∧ axisActive motors j = true then tval cfg phase approach j
      else s.target j := by
  induction l generalizing s with
  | nil => simp
  | cons a t ih =>
    rw [List.foldl_cons, ih]
    by_cases hjt : j ∈ t ∧ axisActive motors j = true
    · rw [if_pos hjt, if_pos ⟨List.mem_cons_of_mem a hjt.1, hjt.2⟩]
    · rw [if_neg hjt, planAxis_target]
      by_cases hja : j = a
      · subst hja
        by_cases ha : axisActive motors j
        · rw [if_pos ⟨rfl, ha⟩, if_pos ⟨List.mem_cons_self j t, ha⟩]
        · simp only [Bool.not_eq_true] at ha
          rw [if_neg (by simp [ha]), if_neg (by simp [ha])]
      · rw [if_neg (by simp [hja])]
        rw [if_neg]
        rintro ⟨hmem, hact⟩
        rcases List.mem_cons.mp hmem with h | h
        · exact hja h
        · exact hjt ⟨h, hact⟩

theorem fold_rates (cfg : AxesCfg) (motors : MotorMask) (phase : HomingPhase)
    (approach : Bool) (l : List Nat) (s : PlanState) (j : Nat) :
    (l.foldl (planAxis cfg motors phase approach) s).rates j =
      if j ∈ l ∧ axisActive motors j = true then rval cfg phase j
      else s.rates j := by
  induction l generalizing s with
  | nil => simp
  | cons a t ih =>
    rw [List.foldl_cons, ih]
    by_cases hjt : j ∈ t ∧ axisActive motors j = true
    · rw [if_pos hjt, if_pos ⟨List.mem_cons_of_mem a hjt.1, hjt.2⟩]
    · rw [if_neg hjt, planAxis_rates]
      by_cases hja : j = a
      · subst hja
        by_cases ha : axisActive motors j
        · rw [if_pos ⟨rfl, ha⟩, if_pos ⟨List.mem_cons_self j t, ha⟩]
        · simp only [Bool.not_eq_true] at ha
          rw [if_neg (by simp [ha]), if_neg (by simp [ha])]
      · rw [if_neg (by simp [hja])]
        rw [if_neg]
        rintro ⟨hmem, hact⟩
        rcases List.mem_cons.mp hmem with h | h
        · exact hja h
        · exact hjt ⟨h, hact⟩

theorem fold_rateSq (cfg : AxesCfg) (motors : MotorMask) (phase : HomingPhase)
    (approach : Bool) (l : List Nat) (s : PlanState) :
    (l.foldl (planAxis cfg motors phase approach) s).rateSq =
      s.rateSq + ((l.filter (fun i => axisActive motors i)).map
        (fun i => rval cfg phase i * rval cfg phase i)).sum := by
  induction l generalizing s with
  | nil => simp
  | cons a t ih =>
    rw [List.foldl_cons, ih, planAxis_rateSq]
    by_cases ha : axisActive motors a
    · rw [if_pos ha, List.filter_cons_of_pos ha, List.map_cons, List.sum_cons]
      ring
    · rw [if_neg ha, List.filter_cons_of_neg (by simpa using ha)]

theorem fold_axesMask (cfg : AxesCfg) (motors : MotorMask) (phase : HomingPhase)
    (approach : Bool) (l : List Nat) (s : PlanState) (j : Nat) :
    (l.foldl (planAxis cfg motors phase approach) s).axesMask.testBit j =
      (s.axesMask.testBit j || (decide (j ∈ l) && axisActive motors j)) := by
  induction l generalizing s with
  | nil => simp
  | cons a t ih =>
    rw [List.foldl_cons, ih, planAxis_axesMask]
    by_cases hja : j = a
    · subst hja
      simp [List.mem_cons]
      tauto
    · simp [hja, List.mem_cons]

theorem fold_zeroedSteps (cfg : AxesCfg) (motors : MotorMask) (phase : HomingPhase)
    (approach : Bool) (l : List Nat) (s : PlanState) (j : Nat) :
    (l.foldl (planAxis cfg motors phase approach) s).zeroedSteps.testBit j =
      (s.zeroedSteps.testBit j || (decide (j ∈ l) && axisActive motors j)) := by
  induction l generalizing s with
  | nil => simp
  | cons a t ih =>
    rw [List.foldl_cons, ih, planAxis_zeroedSteps]
    by_cases hja : j = a
    · subst hja
      simp [List.mem_cons]
      tauto
    · simp [hja, List.mem_cons]

/-- The `(axis, motor)` pairs one axis contributes to the blocked list. -/
def blockedOf (cfg : AxesCfg) (phase : HomingPhase) (i : Nat) : List (Nat × Nat) :=
  match (pickPhase phase (cfg.axis i)).blocked with
  | some m => [(i, m)]
  | none => []

/-- The blocked `(axis, motor)` pairs contributed by a list of axis
indices. -/
def blockedList (cfg : AxesCfg) (motors : MotorMask) (phase : HomingPhase) :
    List Nat → List (Nat × Nat)
  | [] => []
  | i :: t =>
    (if axisActive motors i then blockedOf cfg phase i else []) ++
      blockedList cfg motors phase t

theorem planAxis_blocked (cfg : AxesCfg) (motors : MotorMask) (phase : HomingPhase)
    (approach : Bool) (s : PlanState) (a : Nat) :
    (planAxis cfg motors phase approach s a).blocked =
      s.blocked ++ (if axisActive motors a then blockedOf cfg phase a else []) := by
  unfold planAxis blockedOf
  by_cases ha : axisActive motors a
  · cases hb : (pickPhase phase (cfg.axis a)).blocked <;> simp [ha, hb]
  · simp only [Bool.not_eq_true] at ha
    simp [ha]

theorem fold_blocked (cfg : AxesCfg) (motors : MotorMask) (phase : HomingPhase)
    (approach : Bool) (l : List Nat) (s : PlanState) :
    (l.foldl (planAxis cfg motors phase approach) s).blocked =
      s.blocked ++ blockedList cfg motors phase l := by
  induction l generalizing s with
  | nil => simp [blockedList]
  | cons a t ih =>
    rw [List.foldl_cons, ih, planAxis_blocked]
    show _ = s.blocked ++ ((if axisActive motors a then blockedOf cfg phase a else []) ++ _)
    rw [List.append_assoc]

theorem planAxis_inactive (cfg : AxesCfg) (motors : MotorMask) (phase : HomingPhase)
    (approach : Bool) (s : PlanState) (a : Nat)
    (ha : axisActive motors a = false) :
    planAxis cfg motors phase approach s a = s := by
  unfold planAxis
  simp [ha]

theorem planAxis_maxSeekTime (cfg : AxesCfg) (motors : MotorMask) (phase : HomingPhase)
    (approach : Bool) (s : PlanState) (a : Nat)
    (ha : axisActive motors a = true) :
    (planAxis cfg motors phase approach s a).maxSeekTime =
      if stime cfg phase a > s.maxSeekTime then stime cfg phase a else s.maxSeekTime := by
  unfold planAxis stime
  simp [ha]

theorem planAxis_limitingRate (cfg : AxesCfg) (motors : MotorMask) (phase : HomingPhase)
    (approach : Bool) (s : PlanState) (a : Nat)
    (ha : axisActive motors a = true) :
    (planAxis cfg motors phase approach s a).limitingRate =
      if stime cfg phase a > s.maxSeekTime then rval cfg phase a else s.limitingRate := by
  unfold planAxis stime rval
  simp [ha]

/-- Invariant of the limiting-axis search of `plan_move`'s first loop: the
running maximum only grows, every active seek time processed is bounded by
the final maximum, and whenever the maximum changed, some processed active
axis realises both the final `maxSeekTime` and the final `limitingRate`. -/
theorem fold_limiting (cfg : AxesCfg) (motors : MotorMask) (phase : HomingPhase)
    (approach : Bool) (l : List Nat) (s : PlanState) :
    s.maxSeekTime ≤ (l.foldl (planAxis cfg motors phase approach) s).maxSeekTime ∧
    (∀ i ∈ l, axisActive motors i = true →
      stime cfg phase i ≤ (l.foldl (planAxis cfg motors phase approach) s).maxSeekTime) ∧
    (((l.foldl (planAxis cfg motors phase approach) s).maxSeekTime = s.maxSeekTime ∧
      (l.foldl (planAxis cfg motors phase approach) s).limitingRate = s.limitingRate) ∨
      ∃ L, L ∈ l ∧ axisActive motors L = true ∧
        stime cfg phase L = (l.foldl (planAxis cfg motors phase approach) s).maxSeekTime ∧
        rval cfg phase L = (l.foldl (planAxis cfg motors phase approach) s).limitingRate) := by
  induction l generalizing s with
  | nil => exact ⟨le_refl _, by simp, Or.inl ⟨rfl, rfl⟩⟩
  | cons a t ih =>
    rw [List.foldl_cons]
    obtain ⟨mono, hall, hw⟩ := ih (planAxis cfg motors phase approach s a)
    by_cases ha : axisActive motors a
    · by_cases hgt : stime cfg phase a > s.maxSeekTime
      · have h1 : (planAxis cfg motors phase approach s a).maxSeekTime = stime cfg phase a := by
          rw [planAxis_maxSeekTime cfg motors phase approach s a ha, if_pos hgt]
        have h2 : (planAxis cfg motors phase approach s a).limitingRate = rval cfg phase a := by
          rw [planAxis_limitingRate cfg motors phase approach s a ha, if_pos hgt]
        refine ⟨le_of_lt (lt_of_lt_of_le hgt (h1 ▸ mono)), ?_, ?_⟩
        · intro i hi hact
          rcases List.mem_cons.mp hi with h | h
          · subst h
            exact h1 ▸ mono
          · exact hall i h hact
        · rcases hw with ⟨he1, he2⟩ | ⟨L, hL, hact, hst, hr⟩
          · exact Or.inr ⟨a, List.mem_cons_self a t, ha,
              by rw [he1, h1], by rw [he2, h2]⟩
          · exact Or.inr ⟨L, List.mem_cons_of_mem a hL, hact, hst, hr⟩
      · have h1 : (planAxis cfg motors phase approach s a).maxSeekTime = s.maxSeekTime := by
          rw [planAxis_maxSeekTime cfg motors phase approach s a ha, if_neg hgt]
        have h2 : (planAxis cfg motors phase approach s a).limitingRate = s.limitingRate := by
          rw [planAxis_limitingRate cfg motors phase approach s a ha, if_neg hgt]
        refine ⟨h1 ▸ mono, ?_, ?_⟩
        · intro i hi hact
          rcases List.mem_cons.mp hi with h | h
          · subst h
            exact le_trans (le_of_not_lt hgt) (h1 ▸ mono)
          · exact hall i h hact
        · rcases hw with ⟨he1, he2⟩ | ⟨L, hL, hact, hst, hr⟩
          · exact Or.inl ⟨by rw [he1, h1], by rw [he2, h2]⟩
          · exact Or.inr ⟨L, List.mem_cons_of_mem a hL, hact, hst, hr⟩
    · simp only [Bool.not_eq_true] at ha
      rw [planAxis_inactive cfg motors phase approach s a ha] at mono hall hw ⊢
      refine ⟨mono, ?_, ?_⟩
      · intro i hi hact
        rcases List.mem_cons.mp hi with h | h
        · subst h
          rw [ha] at hact
          exact absurd hact Bool.false_ne_true
        · exact hall i h hact
      · rcases hw with he | ⟨L, hL, hrest⟩
        · exact Or.inl he
        · exact Or.inr ⟨L, List.mem_cons_of_mem a hL, hrest⟩

theorem plan_move_feedRateSq_eq (cfg : AxesCfg) (mpos : Nat → ℚ) (motors : MotorMask)
    (phase : HomingPhase) (approach : Bool) :
    (plan_move cfg mpos motors phase approach).feedRateSq =
      (((List.range cfg.numberAxis).filter (fun i => axisActive motors i)).map
        (fun i => rval cfg phase i * rval cfg phase i)).sum := by
  show ((List.range cfg.numberAxis).foldl (planAxis cfg motors phase approach)
      (planInit mpos)).rateSq = _
  rw [fold_rateSq]
  simp [planInit]

theorem list_filter_sum_eq (n : Nat) (p : Nat → Bool) (f : Nat → ℚ) :
    (((List.range n).filter p).map f).sum =
      ∑ i ∈ (Finset.range n).filter (fun i => p i = true), f i := by
  induction n with
  | zero => simp
  | succ n ih =>
    rw [List.range_succ, List.filter_append, List.map_append, List.sum_append,
        Finset.range_succ, Finset.filter_insert]
    by_cases hp : p n = true
    · rw [if_pos hp, Finset.sum_insert (by simp)]
      simp only [List.filter_cons, hp, if_true, List.filter_nil, List.map_cons,
        List.map_nil, List.sum_cons, List.sum_nil, ih]
      ring
    · rw [if_neg hp]
      simp only [List.filter_cons, hp, Bool.false_eq_true, if_false, List.filter_nil,
        List.map_nil, List.sum_nil, ih, add_zero]

/-- The set of active axes of a `plan_move` call. -/
def activeAxes (cfg : AxesCfg) (motors : MotorMask) : Finset Nat :=
  (Finset.range cfg.numberAxis).filter (fun i => axisActive motors i = true)

/-- C1.  For every `plan_move` call with a non-empty motor mask, the feed
rate submitted to the planner — `sqrtf` of the accumulated `rate` — equals
the Euclidean norm of the per-axis rates of the active axes; when exactly
one axis is active it equals that axis's own phase rate. -/
theorem plan_move_feed_rate_euclidean (cfg : AxesCfg) (mpos : Nat → ℚ)
    (motors : MotorMask) (phase : HomingPhase) (approach : Bool)
    (hne : ∃ i, i < cfg.numberAxis ∧ axisActive motors i = true) :
    Real.sqrt (((plan_move cfg mpos motors phase approach).feedRateSq : ℚ) : ℝ) =
      Real.sqrt (∑ i ∈ activeAxes cfg motors, ((rval cfg phase i : ℚ) : ℝ) ^ 2) ∧
    (∀ a : Nat, activeAxes cfg motors = {a} → 0 ≤ rval cfg phase a →
      Real.sqrt (((plan_move cfg mpos motors phase approach).feedRateSq : ℚ) : ℝ) =
        ((rval cfg phase a : ℚ) : ℝ)) := by
  have hsum : (plan_move cfg mpos motors phase approach).feedRateSq =
      ∑ i ∈ activeAxes cfg motors, rval cfg phase i * rval cfg phase i := by
    rw [plan_move_feedRateSq_eq, list_filter_sum_eq]
    rfl
  have hcast : (((plan_move cfg mpos motors phase approach).feedRateSq : ℚ) : ℝ) =
      ∑ i ∈ activeAxes cfg motors, ((rval cfg phase i : ℚ) : ℝ) ^ 2 := by
    rw [hsum]
    push_cast
    exact Finset.sum_congr rfl fun i _ => by ring
  constructor
  · rw [hcast]
  · intro a hone hra
    rw [hcast, hone, Finset.sum_singleton, Real.sqrt_sq (by exact_mod_cast hra)]

theorem rval_fast (cfg : AxesCfg) (i : Nat) :
    rval cfg HomingPhase.FastApproach i = (cfg.axis i).homing.seekRate := rfl

theorem stime_fast (cfg : AxesCfg) (i : Nat) :
    stime cfg HomingPhase.FastApproach i =
      (cfg.axis i).maxTravel / (cfg.axis i).homing.seekRate := rfl

theorem tval_fast (cfg : AxesCfg) (approach : Bool) (i : Nat) :
    tval cfg HomingPhase.FastApproach approach i =
      if Bool.xor (cfg.axis i).homing.positiveDirection approach then
        -(cfg.axis i).maxTravel
      else (cfg.axis i).maxTravel := rfl

theorem scaleTarget_fast_approach (cfg : AxesCfg) (s : PlanState) (i : Nat)
    (hb : bitnum_is_true s.axesMask i = true) :
    scaleTarget cfg HomingPhase.FastApproach true s i =
      s.target i * (cfg.axis i).homing.seek_scaler * (s.rates i / s.limitingRate) := by
  unfold scaleTarget
  simp [hb]

theorem scaleTarget_inactive (cfg : AxesCfg) (phase : HomingPhase) (approach : Bool)
    (s : PlanState) (i : Nat) (hb : bitnum_is_true s.axesMask i = false) :
    scaleTarget cfg phase approach s i = s.target i := by
  unfold scaleTarget
  simp [hb]

theorem plan_move_axesMask_testBit (cfg : AxesCfg) (mpos : Nat → ℚ) (motors : MotorMask)
    (phase : HomingPhase) (approach : Bool) (j : Nat) :
    (plan_move cfg mpos motors phase approach).axesMask.testBit j =
      (decide (j < cfg.numberAxis) && axisActive motors j) := by
  show ((List.range cfg.numberAxis).foldl (planAxis cfg motors phase approach)
      (planInit mpos)).axesMask.testBit j = _
  rw [fold_axesMask]
  simp [planInit, List.mem_range]

theorem plan_move_fold_target (cfg : AxesCfg) (mpos : Nat → ℚ) (motors : MotorMask)
    (phase : HomingPhase) (approach : Bool) (j : Nat) :
    ((List.range cfg.numberAxis).foldl (planAxis cfg motors phase approach)
        (planInit mpos)).target j =
      if j < cfg.numberAxis ∧ axisActive motors j = true then tval cfg phase approach j
      else mpos j := by
  rw [fold_target]
  simp [planInit, List.mem_range]

theorem plan_move_fold_rates (cfg : AxesCfg) (mpos : Nat → ℚ) (motors : MotorMask)
    (phase : HomingPhase) (approach : Bool) (j : Nat) :
    ((List.range cfg.numberAxis).foldl (planAxis cfg motors phase approach)
        (planInit mpos)).rates j =
      if j < cfg.numberAxis ∧ axisActive motors j = true then rval cfg phase j
      else 0 := by
  rw [fold_rates]
  simp [planInit, List.mem_range]

/-- C2.  On FastApproach with at least one active axis (of positive rate
and some positive travel), every active axis's target magnitude is its
travel times its seek scaler times (its own rate over the limiting rate),
where the limiting rate is the rate of an active axis with the largest
`travel/rate` quotient; that limiting axis keeps scale factor 1, so its
target is plus or minus its travel times its seek scaler. -/
theorem plan_move_fast_approach_targets (cfg : AxesCfg) (mpos : Nat → ℚ)
    (motors : MotorMask)
    (hpos : ∀ i, i < cfg.numberAxis → axisActive motors i = true →
      0 < (cfg.axis i).homing.seekRate ∧ 0 ≤ (cfg.axis i).maxTravel ∧
        0 ≤ (cfg.axis i).homing.seek_scaler)
    (hsome : ∃ j, j < cfg.numberAxis ∧ axisActive motors j = true ∧
      0 < (cfg.axis j).maxTravel) :
    (∀ i, i < cfg.numberAxis → axisActive motors i = true →
      |(plan_move cfg mpos motors HomingPhase.FastApproach true).target i| =
        (cfg.axis i).maxTravel * (cfg.axis i).homing.seek_scaler *
          ((cfg.axis i).homing.seekRate /
            (plan_move cfg mpos motors HomingPhase.FastApproach true).limitingRate)) ∧
    (∃ L, L < cfg.numberAxis ∧ axisActive motors L = true ∧
      (∀ i, i < cfg.numberAxis → axisActive motors i = true →
        (cfg.axis i).maxTravel / (cfg.axis i).homing.seekRate ≤
          (cfg.axis L).maxTravel / (cfg.axis L).homing.seekRate) ∧
      (plan_move cfg mpos motors HomingPhase.FastApproach true).limitingRate =
        (cfg.axis L).homing.seekRate ∧
      (plan_move cfg mpos motors HomingPhase.FastApproach true).target L =
        (if Bool.xor (cfg.axis L).homing.positiveDirection true then
          -(cfg.axis L).maxTravel else (cfg.axis L).maxTravel) *
          (cfg.axis L).homing.seek_scaler) := by
  obtain ⟨hmono, hall, hwit⟩ :=
    fold_limiting cfg motors HomingPhase.FastApproach true (List.range cfg.numberAxis)
      (planInit mpos)
  obtain ⟨j, hjn, hja, hjt⟩ := hsome
  have hjrate := (hpos j hjn hja).1
  have hst : 0 < stime cfg HomingPhase.FastApproach j := by
    rw [stime_fast]
    exact div_pos hjt hjrate
  have hmax : 0 < ((List.range cfg.numberAxis).foldl
      (planAxis cfg motors HomingPhase.FastApproach true) (planInit mpos)).maxSeekTime :=
    lt_of_lt_of_le hst (hall j (List.mem_range.mpr hjn) hja)
  have hL : ∃ L, L ∈ List.range cfg.numberAxis ∧ axisActive motors L = true ∧
      stime cfg HomingPhase.FastApproach L = ((List.range cfg.numberAxis).foldl
        (planAxis cfg motors HomingPhase.FastApproach true) (planInit mpos)).maxSeekTime ∧
      rval cfg HomingPhase.FastApproach L = ((List.range cfg.numberAxis).foldl
        (planAxis cfg motors HomingPhase.FastApproach true) (planInit mpos)).limitingRate := by
    rcases hwit with ⟨he, _⟩ | h
    · rw [he] at hmax
      simp [planInit] at hmax
    · exact h
  obtain ⟨L, hLn, hLa, hLst, hLr⟩ := hL
  rw [List.mem_range] at hLn
  have hLrate := (hpos L hLn hLa).1
  have hlim : (plan_move cfg mpos motors HomingPhase.FastApproach true).limitingRate =
      (cfg.axis L).homing.seekRate := by
    show ((List.range cfg.numberAxis).foldl
      (planAxis cfg motors HomingPhase.FastApproach true) (planInit mpos)).limitingRate = _
    rw [← hLr, rval_fast]
  have hlimpos : 0 < (plan_move cfg mpos motors HomingPhase.FastApproach true).limitingRate := by
    rw [hlim]
    exact hLrate
  have htarget : ∀ i, i < cfg.numberAxis → axisActive motors i = true →
      (plan_move cfg mpos motors HomingPhase.FastApproach true).target i =
        tval cfg HomingPhase.FastApproach true i * (cfg.axis i).homing.seek_scaler *
          ((cfg.axis i).homing.seekRate /
            (plan_move cfg mpos motors HomingPhase.FastApproach true).limitingRate) := by
    intro i hin hia
    have hb : bitnum_is_true ((List.range cfg.numberAxis).foldl
        (planAxis cfg motors HomingPhase.FastApproach true) (planInit mpos)).axesMask i = true := by
      show ((List.range cfg.numberAxis).foldl
        (planAxis cfg motors HomingPhase.FastApproach true) (planInit mpos)).axesMask.testBit i = true
      rw [fold_axesMask]
      simp [planInit, List.mem_range, hin, hia]
    show scaleTarget cfg HomingPhase.FastApproach true ((List.range cfg.numberAxis).foldl
      (planAxis cfg motors HomingPhase.FastApproach true) (planInit mpos)) i = _
    rw [scaleTarget_fast_approach cfg _ i hb, plan_move_fold_target, plan_move_fold_rates,
      if_pos ⟨hin, hia⟩, if_pos ⟨hin, hia⟩, rval_fast]
    rfl
  constructor
  · intro i hin hia
    have hirate := (hpos i hin hia).1
    have htrav := (hpos i hin hia).2.1
    have hscal := (hpos i hin hia).2.2
    rw [htarget i hin hia, abs_mul, abs_mul]
    have habs_t : |tval cfg HomingPhase.FastApproach true i| = (cfg.axis i).maxTravel := by
      rw [tval_fast]
      rcases Bool.xor (cfg.axis i).homing.positiveDirection true with _ | _
      · simp [abs_of_nonneg htrav]
      · simp [abs_of_nonneg htrav]
    rw [habs_t, abs_of_nonneg hscal,
      abs_of_nonneg (div_nonneg (le_of_lt hirate) (le_of_lt hlimpos))]
  · refine ⟨L, hLn, hLa, ?_, hlim, ?_⟩
    · intro i hin hia
      have h1 := hall i (List.mem_range.mpr hin) hia
      rw [← hLst] at h1
      rw [← stime_fast, ← stime_fast]
      exact h1
    · have hself : (cfg.axis L).homing.seekRate /
          (plan_move cfg mpos motors HomingPhase.FastApproach true).limitingRate = 1 := by
        rw [hlim]
        exact div_self (ne_of_gt hLrate)
      rw [htarget L hLn hLa, hself, mul_one, tval_fast]

/-- C10.  `plan_move` leaves axes with neither motor bit set untouched:
their step accumulator is not zeroed and their target entry keeps the
machine position read at entry, so the planned move commands no
displacement for them. -/
theorem plan_move_inactive_axes_untouched (cfg : AxesCfg) (mpos : Nat → ℚ)
    (motors : MotorMask) (phase : HomingPhase) (approach : Bool) (i : Nat)
    (hi : axisActive motors i = false) :
    (plan_move cfg mpos motors phase approach).target i = mpos i ∧
    (plan_move cfg mpos motors phase approach).zeroedSteps.testBit i = false := by
  constructor
  · have hb : bitnum_is_true ((List.range cfg.numberAxis).foldl
        (planAxis cfg motors phase approach) (planInit mpos)).axesMask i = false := by
      show ((List.range cfg.numberAxis).foldl
        (planAxis cfg motors phase approach) (planInit mpos)).axesMask.testBit i = false
      rw [fold_axesMask]
      simp [planInit, hi]
    show scaleTarget cfg phase approach ((List.range cfg.numberAxis).foldl
      (planAxis cfg motors phase approach) (planInit mpos)) i = mpos i
    rw [scaleTarget_inactive cfg phase approach _ i hb, plan_move_fold_target]
    simp [hi]
  · show ((List.range cfg.numberAxis).foldl
      (planAxis cfg motors phase approach) (planInit mpos)).zeroedSteps.testBit i = false
    rw [fold_zeroedSteps]
    simp [planInit, hi]

theorem tval_abs (cfg : AxesCfg) (phase : HomingPhase) (approach : Bool) (i : Nat) :
    |tval cfg phase approach i| = |(pickPhase phase (cfg.axis i)).travel| := by
  unfold tval
  split
  · rw [abs_neg]
  · rfl

theorem pickPhase_pulloff2_travel_abs (a : AxisCfg) :
    |(pickPhase HomingPhase.Pulloff2 a).travel| = |a.extraPulloff| := by
  unfold pickPhase
  by_cases h1 : a.extraPulloff < 0
  · simp [h1, abs_neg]
  · by_cases h2 : a.extraPulloff > 0
    · simp [h1, h2]
    · simp [h1, h2]

theorem pickPhase_pulloff2_blocked (a : AxisCfg) (m : Nat) :
    (pickPhase HomingPhase.Pulloff2 a).blocked = some m ↔
      ((m = 1 ∧ a.extraPulloff < 0) ∨ (m = 0 ∧ 0 < a.extraPulloff)) := by
  rcases lt_trichotomy a.extraPulloff 0 with h | h | h
  · have hp : (pickPhase HomingPhase.Pulloff2 a).blocked = some 1 := by
      simp [pickPhase, h]
    rw [hp]
    constructor
    · intro he
      exact Or.inl ⟨(Option.some_inj.mp he).symm, h⟩
    · rintro (⟨rfl, _⟩ | ⟨rfl, hgt⟩)
      · rfl
      · exact absurd hgt (not_lt_of_gt h)
  · have hp : (pickPhase HomingPhase.Pulloff2 a).blocked = none := by
      simp [pickPhase, h]
    rw [hp]
    constructor
    · intro he
      cases he
    · rintro (⟨_, hlt⟩ | ⟨_, hgt⟩)
      · rw [h] at hlt
        exact absurd hlt (lt_irrefl 0)
      · rw [h] at hgt
        exact absurd hgt (lt_irrefl 0)
  · have hp : (pickPhase HomingPhase.Pulloff2 a).blocked = some 0 := by
      simp [pickPhase, asymm h, h]
    rw [hp]
    constructor
    · intro he
      exact Or.inr ⟨(Option.some_inj.mp he).symm, h⟩
    · rintro (⟨rfl, hlt⟩ | ⟨rfl, _⟩)
      · exact absurd hlt (asymm h)
      · rfl

theorem scaleTarget_pulloff (cfg : AxesCfg) (phase : HomingPhase) (s : PlanState)
    (i : Nat) (hb : bitnum_is_true s.axesMask i = true)
    (hph : ¬phase = HomingPhase.FastApproach) :
    scaleTarget cfg phase false s i = s.target i := by
  unfold scaleTarget
  simp [hb, hph]

theorem mem_blockedList (cfg : AxesCfg) (motors : MotorMask) (phase : HomingPhase)
    (l : List Nat) (i m : Nat) :
    ((i, m) ∈ blockedList cfg motors phase l ↔
      i ∈ l ∧ axisActive motors i = true ∧
        (pickPhase phase (cfg.axis i)).blocked = some m) := by
  induction l with
  | nil => simp [blockedList]
  | cons a t ih =>
    rw [blockedList]
    by_cases ha : axisActive motors a
    · rw [if_pos ha, List.mem_append, ih]
      constructor
      · rintro (hmem | ⟨hit, hia, hbm⟩)
        · unfold blockedOf at hmem
          rcases hb : (pickPhase phase (cfg.axis a)).blocked with _ | m'
          · rw [hb] at hmem
            simp at hmem
          · rw [hb] at hmem
            simp only [List.mem_singleton, Prod.mk.injEq] at hmem
            obtain ⟨rfl, rfl⟩ := hmem
            exact ⟨List.mem_cons.mpr (Or.inl rfl), ha, hb⟩
        · exact ⟨List.mem_cons_of_mem a hit, hia, hbm⟩
      · rintro ⟨hmem, hia, hbm⟩
        rcases List.mem_cons.mp hmem with rfl | hit
        · left
          unfold blockedOf
          rw [hbm]
          exact List.mem_singleton.mpr rfl
        · exact Or.inr ⟨hit, hia, hbm⟩
    · rw [if_neg ha, List.nil_append, ih]
      constructor
      · rintro ⟨hit, hia, hbm⟩
        exact ⟨List.mem_cons_of_mem a hit, hia, hbm⟩
      · rintro ⟨hmem, hia, hbm⟩
        rcases List.mem_cons.mp hmem with rfl | hit
        · exact absurd hia ha
        · exact ⟨hit, hia, hbm⟩

theorem plan_move_blocked_eq (cfg : AxesCfg) (mpos : Nat → ℚ) (motors : MotorMask)
    (phase : HomingPhase) (approach : Bool) :
    (plan_move cfg mpos motors phase approach).blocked =
      blockedList cfg motors phase (List.range cfg.numberAxis) := by
  show ((List.range cfg.numberAxis).foldl (planAxis cfg motors phase approach)
      (planInit mpos)).blocked = _
  rw [fold_blocked]
  simp [planInit]

/-- C6.  In `plan_move` for Pulloff2, every active axis's travel (hence its
target magnitude, since pull-off phases have unit fudge) is the absolute
value of its extra pull-off, and the sign of the extra pull-off selects the
blocked motor: negative blocks motor 1, positive blocks motor 0, zero
blocks neither — never both motors of one axis. -/
theorem plan_move_pulloff2_travel_and_blocking (cfg : AxesCfg) (mpos : Nat → ℚ)
    (motors : MotorMask) :
    (∀ i, i < cfg.numberAxis → axisActive motors i = true →
      |(plan_move cfg mpos motors HomingPhase.Pulloff2 false).target i| =
        |(cfg.axis i).extraPulloff|) ∧
    (∀ i m, ((i, m) ∈ (plan_move cfg mpos motors HomingPhase.Pulloff2 false).blocked ↔
      (i < cfg.numberAxis ∧ axisActive motors i = true ∧
        ((m = 1 ∧ (cfg.axis i).extraPulloff < 0) ∨
         (m = 0 ∧ 0 < (cfg.axis i).extraPulloff))))) ∧
    (∀ i, ¬((i, 0) ∈ (plan_move cfg mpos motors HomingPhase.Pulloff2 false).blocked ∧
      (i, 1) ∈ (plan_move cfg mpos motors HomingPhase.Pulloff2 false).blocked)) := by
  have hmem : ∀ i m, ((i, m) ∈ (plan_move cfg mpos motors HomingPhase.Pulloff2 false).blocked ↔
      (i < cfg.numberAxis ∧ axisActive motors i = true ∧
        ((m = 1 ∧ (cfg.axis i).extraPulloff < 0) ∨
         (m = 0 ∧ 0 < (cfg.axis i).extraPulloff)))) := by
    intro i m
    rw [plan_move_blocked_eq, mem_blockedList, List.mem_range,
      pickPhase_pulloff2_blocked]
  refine ⟨?_, hmem, ?_⟩
  · intro i hin hia
    have hb : bitnum_is_true ((List.range cfg.numberAxis).foldl
        (planAxis cfg motors HomingPhase.Pulloff2 false) (planInit mpos)).axesMask i = true := by
      show ((List.range cfg.numberAxis).foldl
        (planAxis cfg motors HomingPhase.Pulloff2 false) (planInit mpos)).axesMask.testBit i = true
      rw [fold_axesMask]
      simp [planInit, List.mem_range, hin, hia]
    show |scaleTarget cfg HomingPhase.Pulloff2 false ((List.range cfg.numberAxis).foldl
      (planAxis cfg motors HomingPhase.Pulloff2 false) (planInit mpos)) i| = _
    rw [scaleTarget_pulloff cfg HomingPhase.Pulloff2 _ i hb (by simp),
      plan_move_fold_target, if_pos ⟨hin, hia⟩, tval_abs, pickPhase_pulloff2_travel_abs]
  · intro i hboth
    obtain ⟨h0, h1⟩ := hboth
    rw [hmem] at h0 h1
    rcases h0.2.2 with ⟨h01, _⟩ | ⟨_, hgt⟩
    · exact absurd h01 (by simp)
    · rcases h1.2.2 with ⟨_, hlt⟩ | ⟨h10, _⟩
      · exact absurd hgt (not_lt_of_gt hlt)
      · exact absurd h10 (by simp)

theorem squared_testBit (motors : MotorMask) (ax : Nat) :
    (motors &&& (motors >>> 16)).testBit ax =
      (motors.testBit ax && motors.testBit (ax + 16)) := by
  rw [Nat.testBit_and, Nat.testBit_shiftRight, Nat.add_comm]

theorem needsPulloff2_iff (cfg : AxesCfg) (motors : MotorMask) :
    needsPulloff2 cfg motors = true ↔
      ∃ ax, ax < cfg.numberAxis ∧ motors.testBit ax = true ∧
        motors.testBit (ax + 16) = true ∧ (cfg.axis ax).extraPulloff ≠ 0 := by
  unfold needsPulloff2
  by_cases hz : motors &&& (motors >>> 16) = 0
  · rw [if_pos hz]
    simp only [Bool.false_eq_true, false_iff]
    rintro ⟨ax, _, h0, h16, _⟩
    have hbit := squared_testBit motors ax
    rw [hz, h0, h16] at hbit
    simp at hbit
  · rw [if_neg hz, List.any_eq_true]
    constructor
    · rintro ⟨ax, hmem, hcond⟩
      rw [Bool.and_eq_true] at hcond
      obtain ⟨hb, hd⟩ := hcond
      rw [bitnum_is_true, squared_testBit, Bool.and_eq_true] at hb
      exact ⟨ax, List.mem_range.mp hmem, hb.1, hb.2, of_decide_eq_true hd⟩
    · rintro ⟨ax, hax, h0, h16, hne⟩
      refine ⟨ax, List.mem_range.mpr hax, ?_⟩
      rw [Bool.and_eq_true, bitnum_is_true, squared_testBit, Bool.and_eq_true]
      exact ⟨⟨h0, h16⟩, decide_eq_true hne⟩

theorem mem_phaseSequence_pulloff2 (cfg : AxesCfg) (motors : MotorMask) :
    HomingPhase.Pulloff2 ∈ phaseSequence cfg motors ↔
      needsPulloff2 cfg motors = true := by
  unfold phaseSequence
  by_cases h : needsPulloff2 cfg motors
  · simp [h]
  · simp only [Bool.not_eq_true] at h
    simp [h]

/-- When no phase fails or starves, `runPhases` attempts every phase of
its input list in order. -/
theorem runPhases_ok (cfg : AxesCfg) (env : CycleEnv) (motors : MotorMask)
    (l : List HomingPhase) (ap : Bool) (f : RTFlags)
    (hal : (runPhases cfg env motors l ap f).2.2.2.1 = none)
    (hst : (runPhases cfg env motors l ap f).2.2.2.2 = false) :
    (runPhases cfg env motors l ap f).1 = l := by
  induction l generalizing ap f with
  | nil => rfl
  | cons p ps ih =>
    rw [runPhases] at hal hst ⊢
    rcases hout : (run cfg (env.mposAt p) ap f (env.limitsAt p) motors p
        (env.inputs p)).outcome with _ | settle | a | _ <;>
      rw [hout] at hal hst <;> dsimp only at hal hst ⊢
    · exact congrArg (p :: ·) (ih _ _ hal hst)
    · exact congrArg (p :: ·) (ih _ _ hal hst)
    · exact absurd hal (by simp)
    · exact absurd hst (by simp)

/-- C5.  A cycle with no failure runs Pulloff2 (after Pulloff1) iff
`needsPulloff2` holds for the participating motors, and `needsPulloff2`
holds iff some configured axis with both motor bits set in the mask has a
nonzero extra pull-off. -/
theorem run_one_cycle_pulloff2_iff (cfg : AxesCfg) (env : CycleEnv) (ap0 : Bool)
    (f0 : RTFlags) (axisMask : AxisMask)
    (hal : (run_one_cycle cfg env ap0 f0 axisMask).alarm = none)
    (hst : (run_one_cycle cfg env ap0 f0 axisMask).stuck = false) :
    (run_one_cycle cfg env ap0 f0 axisMask).phasesRun =
      phaseSequence cfg (cfg.motorsOf (axisMask &&& cfg.homingMask)) ∧
    (HomingPhase.Pulloff2 ∈ (run_one_cycle cfg env ap0 f0 axisMask).phasesRun ↔
      needsPulloff2 cfg (cfg.motorsOf (axisMask &&& cfg.homingMask)) = true) ∧
    (needsPulloff2 cfg (cfg.motorsOf (axisMask &&& cfg.homingMask)) = true ↔
      ∃ ax, ax < cfg.numberAxis ∧
        (cfg.motorsOf (axisMask &&& cfg.homingMask)).testBit ax = true ∧
        (cfg.motorsOf (axisMask &&& cfg.homingMask)).testBit (ax + 16) = true ∧
        (cfg.axis ax).extraPulloff ≠ 0) := by
  have hrun : (run_one_cycle cfg env ap0 f0 axisMask).phasesRun =
      phaseSequence cfg (cfg.motorsOf (axisMask &&& cfg.homingMask)) := by
    exact runPhases_ok cfg env _ _ ap0 f0 hal hst
  refine ⟨hrun, ?_, needsPulloff2_iff cfg _⟩
  rw [hrun]
  exact mem_phaseSequence_pulloff2 cfg _

theorem f1_reset (s : LoopState) (env : RTInput) :
    (if (mergeFlags s.flags env).statusReport then
      { mergeFlags s.flags env with statusReport := false }
     else mergeFlags s.flags env).reset = (s.flags.reset || env.reset) := by
  unfold mergeFlags
  split <;> rfl

theorem f1_safetyDoor (s : LoopState) (env : RTInput) :
    (if (mergeFlags s.flags env).statusReport then
      { mergeFlags s.flags env with statusReport := false }
     else mergeFlags s.flags env).safetyDoor = (s.flags.safetyDoor || env.safetyDoor) := by
  unfold mergeFlags
  split <;> rfl

theorem f1_cycleStop (s : LoopState) (env : RTInput) :
    (if (mergeFlags s.flags env).statusReport then
      { mergeFlags s.flags env with statusReport := false }
     else mergeFlags s.flags env).cycleStop = (s.flags.cycleStop || env.cycleStop) := by
  unfold mergeFlags
  split <;> rfl

/-- Flag discipline of a loop-body throw: alarms raised on the cycle-stop
path carry a cleared cycle-stop flag, while the reset and safety-door
alarms leave their triggering flag set. -/
theorem runIter_error_flags (env : RTInput) (s : LoopState) (a : ExecAlarm) (f : RTFlags)
    (h : runIter env s = Except.error (a, f)) :
    ((a = ExecAlarm.HomingFailApproach ∨ a = ExecAlarm.HomingFailPulloff) →
      f.cycleStop = false) ∧
    (a = ExecAlarm.HomingFailReset → f.reset = true) ∧
    (a = ExecAlarm.HomingFailDoor → f.safetyDoor = true) := by
  simp only [runIter] at h
  split_ifs at h <;>
    first
    | exact Except.noConfusion h
    | · injection h with h'
        injection h' with ha hf
        subst ha
        subst hf
        refine ⟨?_, ?_, ?_⟩
        · intro hh
          first
          | rfl
          | rcases hh with hh | hh <;> exact ExecAlarm.noConfusion hh
        · intro hh
          first
          | exact ExecAlarm.noConfusion hh
          | assumption
        · intro hh
          first
          | exact ExecAlarm.noConfusion hh
          | assumption

/-- The loop-level version of the flag discipline, by induction over the
iteration inputs. -/
theorem runLoop_alarm_flags (s : LoopState) (envs : List RTInput) (a : ExecAlarm)
    (f : RTFlags) (h : runLoop s envs = LoopOutcome.alarm a f) :
    ((a = ExecAlarm.HomingFailApproach ∨ a = ExecAlarm.HomingFailPulloff) →
      f.cycleStop = false) ∧
    (a = ExecAlarm.HomingFailReset → f.reset = true) ∧
    (a = ExecAlarm.HomingFailDoor → f.safetyDoor = true) := by
  induction envs generalizing s with
  | nil => exact absurd h (by simp [runLoop])
  | cons env rest ih =>
    rw [runLoop] at h
    rcases hit : runIter env s with p | s'
    · obtain ⟨a', f'⟩ := p
      rw [hit] at h
      dsimp only at h
      rw [LoopOutcome.alarm.injEq] at h
      obtain ⟨rfl, rfl⟩ := h
      exact runIter_error_flags env s a' f' hit
    · rw [hit] at h
      dsimp only at h
      by_cases hz : s'.motors = 0
      · rw [if_pos hz] at h
        exact absurd h (by simp)
      · rw [if_neg hz] at h
        exact ih s' h

/-- When `run` exits by throwing an alarm, the loop result carries the
alarm and its flag state. -/
theorem run_alarmed_loop (cfg : AxesCfg) (mpos : Nat → ℚ) (ap0 : Bool) (f0 : RTFlags)
    (limits0 : MotorMask) (motors : MotorMask) (phase : HomingPhase)
    (envs : List RTInput) (a : ExecAlarm)
    (h : (run cfg mpos ap0 f0 limits0 motors phase envs).outcome = RunOutcome.alarmed a) :
    runLoop { motors := motors, flags := f0, approach := approachOf phase } envs =
      LoopOutcome.alarm a (run cfg mpos ap0 f0 limits0 motors phase envs).flags := by
  unfold run at h ⊢
  by_cases hm : motors = 0
  · rw [if_pos hm] at h
    dsimp only at h
    exact RunOutcome.noConfusion h
  · rw [if_neg hm] at h ⊢
    by_cases hskip : phase = HomingPhase.PrePulloff ∧ limits0 &&& motors = 0
    · rw [if_pos hskip] at h
      dsimp only at h
      exact RunOutcome.noConfusion h
    · rw [if_neg hskip] at h ⊢
      dsimp only at h ⊢
      rcases hl : runLoop { motors := motors, flags := f0, approach := approachOf phase } envs
        with f | ⟨a', f'⟩ | s' <;> rw [hl] at h <;> dsimp only at h ⊢
      · exact RunOutcome.noConfusion h
      · injection h with ha
        subst ha
        rfl
      · exact RunOutcome.noConfusion h

/-- C9.  When `run` raises an alarm from its polling loop, the cycle-stop
flag has been consumed before `HomingFailApproach`/`HomingFailPulloff` is
raised, while the reset and safety-door flags are left set for
`HomingFailReset`/`HomingFailDoor`. -/
theorem run_alarm_flag_consumption (cfg : AxesCfg) (mpos : Nat → ℚ) (ap0 : Bool)
    (f0 : RTFlags) (limits0 : MotorMask) (motors : MotorMask) (phase : HomingPhase)
    (envs : List RTInput) (a : ExecAlarm)
    (h : (run cfg mpos ap0 f0 limits0 motors phase envs).outcome = RunOutcome.alarmed a) :
    ((a = ExecAlarm.HomingFailApproach ∨ a = ExecAlarm.HomingFailPulloff) →
      (run cfg mpos ap0 f0 limits0 motors phase envs).flags.cycleStop = false) ∧
    (a = ExecAlarm.HomingFailReset →
      (run cfg mpos ap0 f0 limits0 motors phase envs).flags.reset = true) ∧
    (a = ExecAlarm.HomingFailDoor →
      (run cfg mpos ap0 f0 limits0 motors phase envs).flags.safetyDoor = true) :=
  runLoop_alarm_flags _ envs a _ (run_alarmed_loop cfg mpos ap0 f0 limits0 motors phase envs a h)

/-- Behaviour of one loop iteration when a cycle-stop is pending and
neither reset nor safety-door is: the flag is cleared, and the iteration
throws `HomingFailApproach` when approaching, throws `HomingFailPulloff`
when pulling off with a limit switch still engaged among the motors, and
otherwise zeroes the motors (normal termination). -/
theorem runIter_cycleStop (env : RTInput) (s : LoopState)
    (hcs : (s.flags.cycleStop || env.cycleStop) = true)
    (hnr : (s.flags.reset || env.reset) = false)
    (hnd : (s.flags.safetyDoor || env.safetyDoor) = false) :
    ∃ f2 : RTFlags, f2.cycleStop = false ∧
      (s.approach = true →
        runIter env s = Except.error (ExecAlarm.HomingFailApproach, f2)) ∧
      (s.approach = false →
        (((env.posLimitMask ||| env.negLimitMask) &&& s.motors ≠ 0 →
          runIter env s = Except.error (ExecAlarm.HomingFailPulloff, f2)) ∧
         ((env.posLimitMask ||| env.negLimitMask) &&& s.motors = 0 →
          runIter env s = Except.ok { motors := 0, flags := f2, approach := s.approach }))) := by
  refine ⟨{ (if (mergeFlags s.flags env).statusReport then
      { mergeFlags s.flags env with statusReport := false }
    else mergeFlags s.flags env) with cycleStop := false }, rfl, ?_, ?_⟩
  · intro hap
    simp only [runIter]
    rw [if_neg (by rw [f1_reset, hnr]; exact Bool.false_ne_true),
      if_neg (by rw [f1_safetyDoor, hnd]; exact Bool.false_ne_true),
      if_pos (by rw [f1_cycleStop]; exact hcs), if_pos hap]
  · intro hap
    constructor
    · intro hlim
      simp only [runIter]
      rw [if_neg (by rw [f1_reset, hnr]; exact Bool.false_ne_true),
        if_neg (by rw [f1_safetyDoor, hnd]; exact Bool.false_ne_true),
        if_pos (by rw [f1_cycleStop]; exact hcs),
        if_neg (by rw [hap]; exact Bool.false_ne_true), hap]
      rw [if_pos]
      simpa using hlim
    · intro hlim
      simp only [runIter]
      rw [if_neg (by rw [f1_reset, hnr]; exact Bool.false_ne_true),
        if_neg (by rw [f1_safetyDoor, hnd]; exact Bool.false_ne_true),
        if_pos (by rw [f1_cycleStop]; exact hcs),
        if_neg (by rw [hap]; exact Bool.false_ne_true), hap]
      rw [if_neg]
      simpa using hlim

/-- C4.  In `run`'s polling loop, a pending cycle-stop (with no pending
reset or safety-door) is cleared and then: on an approach phase `run`
raises `HomingFailApproach`; on a pull-off phase with a limit switch still
active among the motors it raises `HomingFailPulloff`; otherwise the loop
terminates normally and `run` force-stops and flushes the stepper and
delays exactly the planned `settle_ms` before returning. -/
theorem run_cycle_stop_handling (cfg : AxesCfg) (mpos : Nat → ℚ) (ap0 : Bool)
    (flags0 : RTFlags) (limits0 : MotorMask) (motors : MotorMask)
    (phase : HomingPhase) (env : RTInput) (rest : List RTInput)
    (hm : motors ≠ 0)
    (hskip : ¬(phase = HomingPhase.PrePulloff ∧ limits0 &&& motors = 0))
    (hcs : (flags0.cycleStop || env.cycleStop) = true)
    (hnr : (flags0.reset || env.reset) = false)
    (hnd : (flags0.safetyDoor || env.safetyDoor) = false) :
    (run cfg mpos ap0 flags0 limits0 motors phase (env :: rest)).flags.cycleStop = false ∧
    (approachOf phase = true →
      (run cfg mpos ap0 flags0 limits0 motors phase (env :: rest)).outcome =
        RunOutcome.alarmed ExecAlarm.HomingFailApproach) ∧
    (approachOf phase = false →
      (((env.posLimitMask ||| env.negLimitMask) &&& motors ≠ 0 →
        (run cfg mpos ap0 flags0 limits0 motors phase (env :: rest)).outcome =
          RunOutcome.alarmed ExecAlarm.HomingFailPulloff) ∧
       ((env.posLimitMask ||| env.negLimitMask) &&& motors = 0 →
        (run cfg mpos ap0 flags0 limits0 motors phase (env :: rest)).outcome =
          RunOutcome.normal (plan_move cfg mpos motors phase (approachOf phase)).settle))) := by
  obtain ⟨f2, hf2, happ, hpull⟩ := runIter_cycleStop env
    { motors := motors, flags := flags0, approach := approachOf phase } hcs hnr hnd
  have hrun : ∀ o : LoopOutcome,
      runLoop { motors := motors, flags := flags0, approach := approachOf phase }
        (env :: rest) = o →
      run cfg mpos ap0 flags0 limits0 motors phase (env :: rest) =
        (match o with
          | LoopOutcome.finished f =>
            { outcome := RunOutcome.normal
                (plan_move cfg mpos motors phase (approachOf phase)).settle,
              approach := false, flags := f,
              plan := some (plan_move cfg mpos motors phase (approachOf phase)) }
          | LoopOutcome.alarm a f =>
            { outcome := RunOutcome.alarmed a, approach := approachOf phase, flags := f,
              plan := some (plan_move cfg mpos motors phase (approachOf phase)) }
          | LoopOutcome.starved s =>
            { outcome := RunOutcome.starved, approach := approachOf phase, flags := s.flags,
              plan := some (plan_move cfg mpos motors phase (approachOf phase)) }) := by
    intro o ho
    unfold run
    rw [if_neg hm, if_neg hskip]
    dsimp only
    rw [ho]
  by_cases hap : approachOf phase = true
  · have hiter := happ hap
    have hloop : runLoop { motors := motors, flags := flags0, approach := approachOf phase }
        (env :: rest) = LoopOutcome.alarm ExecAlarm.HomingFailApproach f2 := by
      rw [runLoop, hiter]
    rw [hrun _ hloop]
    refine ⟨hf2, fun _ => rfl, ?_⟩
    intro hap'
    rw [hap] at hap'
    exact absurd hap' (by simp)
  · have hap' : approachOf phase = false := by
      simpa using hap
    obtain ⟨hpl, hok⟩ := hpull hap'
    by_cases hlim : (env.posLimitMask ||| env.negLimitMask) &&& motors = 0
    · have hloop : runLoop { motors := motors, flags := flags0, approach := approachOf phase }
          (env :: rest) = LoopOutcome.finished f2 := by
        rw [runLoop, hok hlim]
        dsimp only
        rw [if_pos rfl]
      rw [hrun _ hloop]
      refine ⟨hf2, ?_, ?_⟩
      · intro hh
        rw [hap'] at hh
        exact absurd hh (by simp)
      · intro _
        exact ⟨fun hh => absurd hlim hh, fun _ => rfl⟩
    · have hloop : runLoop { motors := motors, flags := flags0, approach := approachOf phase }
          (env :: rest) = LoopOutcome.alarm ExecAlarm.HomingFailPulloff f2 := by
        rw [runLoop, hpl hlim]
      rw [hrun _ hloop]
      refine ⟨hf2, ?_, ?_⟩
      · intro hh
        rw [hap'] at hh
        exact absurd hh (by simp)
      · intro _
        exact ⟨fun _ => rfl, fun hh => absurd hh hlim⟩

/-- C3 (amended).  `run` sets the global approach flag at phase entry
(true exactly for FastApproach/SlowApproach — the planned move is issued
under that flag) and clears it on normal termination; on the alarm exit
path the flag is NOT cleared: it keeps the value set at phase entry. -/
theorem run_approach_flag_lifecycle (cfg : AxesCfg) (mpos : Nat → ℚ) (ap0 : Bool)
    (f0 : RTFlags) (limits0 : MotorMask) (motors : MotorMask) (phase : HomingPhase)
    (envs : List RTInput)
    (hm : motors ≠ 0)
    (hskip : ¬(phase = HomingPhase.PrePulloff ∧ limits0 &&& motors = 0)) :
    (run cfg mpos ap0 f0 limits0 motors phase envs).plan =
      some (plan_move cfg mpos motors phase (approachOf phase)) ∧
    (∀ st, (run cfg mpos ap0 f0 limits0 motors phase envs).outcome = RunOutcome.normal st →
      (run cfg mpos ap0 f0 limits0 motors phase envs).approach = false) ∧
    (∀ a, (run cfg mpos ap0 f0 limits0 motors phase envs).outcome = RunOutcome.alarmed a →
      (run cfg mpos ap0 f0 limits0 motors phase envs).approach = approachOf phase) := by
  unfold run
  rw [if_neg hm, if_neg hskip]
  dsimp only
  rcases hl : runLoop { motors := motors, flags := f0, approach := approachOf phase } envs
    with f | ⟨a', f'⟩ | s' <;> dsimp only
  · exact ⟨rfl, fun _ _ => rfl, fun a ha => absurd ha (by simp)⟩
  · exact ⟨rfl, fun st hst => absurd hst (by simp), fun _ _ => rfl⟩
  · exact ⟨rfl, fun st hst => absurd hst (by simp), fun a ha => absurd ha (by simp)⟩

/-- A concrete single-axis machine: axis 0 homes with seek rate 500,
feed rate 100, seek scaler 11/10, feed scaler 12/10, settle 250 ms,
positive homing direction, travel 200, pull-off 2, no extra pull-off. -/
def hcA : HomingCfg :=
  { settle_ms := 250, seekRate := 500, feedRate := 100, seek_scaler := mkRat 11 10,
    feed_scaler := mkRat 12 10, positiveDirection := true, cycle := 1, mpos := 0 }

/-- The axis configuration wrapping `hcA`. -/
def acA : AxisCfg :=
  { maxTravel := 200, commonPulloff := 2, extraPulloff := 0, hasHoming := true,
    homing := hcA }

/-- Single-axis machine configuration using `acA`; homing mode engages
exactly the requested motor bits. -/
def cfgA : AxesCfg :=
  { numberAxis := 1, axis := fun _ => acA, homingMask := 1, motorsOf := fun m => m }

/-- All realtime flags clear. -/
def noFlags : RTFlags :=
  { statusReport := false, reset := false, safetyDoor := false, cycleStop := false }

/-- An iteration in which the environment raises the reset request. -/
def envReset : RTInput :=
  { statusReport := false, reset := true, safetyDoor := false, cycleStop := false,
    posLimitMask := 0, negLimitMask := 0 }

/-- An iteration in which the environment raises cycle-stop with no limit
switch active. -/
def envCycleStop : RTInput :=
  { statusReport := false, reset := false, safetyDoor := false, cycleStop := true,
    posLimitMask := 0, negLimitMask := 0 }

/-- An iteration in which the environment raises cycle-stop while the
motor-0 limit switch of axis 0 is active. -/
def envCycleStopLimit : RTInput :=
  { statusReport := false, reset := false, safetyDoor := false, cycleStop := true,
    posLimitMask := 1, negLimitMask := 0 }

/-- A cycle environment in which a reset arrives during FastApproach and
every other phase terminates by an ordinary cycle-stop. -/
def cenvA : CycleEnv :=
  { mposAt := fun _ _ => 0
    limitsAt := fun _ => 0
    inputs := fun p => if p = HomingPhase.FastApproach then [envReset] else [envCycleStop] }

/-- C3 (counterexample).  A reset during the FastApproach phase makes the
cycle fail with `HomingFailReset`, and the approach flag is still `true`
when `run_one_cycle` has finished its catch-path cleanup: the flag is not
cleared on the alarm exit path. -/
theorem run_one_cycle_approach_not_cleared :
    (run_one_cycle cfgA cenvA false noFlags 1).alarm = some ExecAlarm.HomingFailReset ∧
    (run_one_cycle cfgA cenvA false noFlags 1).approach = true := by
  constructor <;> decide

/-- A single-axis configuration with seek rate 500, travel limit 200 and
positive homing direction; the remaining parameters are arbitrary. -/
def singleAxisCfg (sc fs fr cp ep mp : ℚ) (st cyc : Nat) : AxesCfg where
  numberAxis := 1
  axis := fun _ => AxisCfg.mk 200 cp ep true (HomingCfg.mk st 500 fr sc fs true cyc mp)
  homingMask := 1
  motorsOf := fun m => m

theorem single_axis_fast_target (sc fs fr cp ep mp : ℚ) (st cyc : Nat)
    (mpos : Nat → ℚ) :
    (plan_move (singleAxisCfg sc fs fr cp ep mp st cyc) mpos 1
      HomingPhase.FastApproach true).target 0 = 200 * sc := by
  have hact : axisActive 1 0 = true := by decide
  have hfold : (List.range (singleAxisCfg sc fs fr cp ep mp st cyc).numberAxis).foldl
      (planAxis (singleAxisCfg sc fs fr cp ep mp st cyc) 1 HomingPhase.FastApproach true)
      (planInit mpos) =
      planAxis (singleAxisCfg sc fs fr cp ep mp st cyc) 1 HomingPhase.FastApproach true
        (planInit mpos) 0 := rfl
  have hstime : stime (singleAxisCfg sc fs fr cp ep mp st cyc) HomingPhase.FastApproach 0 =
      (200 : ℚ) / 500 := by
    rw [stime_fast]
    rfl
  have hgt : stime (singleAxisCfg sc fs fr cp ep mp st cyc) HomingPhase.FastApproach 0 >
      (planInit mpos).maxSeekTime := by
    rw [hstime]
    show (0 : ℚ) < 200 / 500
    norm_num
  have hb : bitnum_is_true (planAxis (singleAxisCfg sc fs fr cp ep mp st cyc) 1
      HomingPhase.FastApproach true (planInit mpos) 0).axesMask 0 = true := by
    show (planAxis (singleAxisCfg sc fs fr cp ep mp st cyc) 1
      HomingPhase.FastApproach true (planInit mpos) 0).axesMask.testBit 0 = true
    rw [planAxis_axesMask]
    simp [hact, planInit]
  show scaleTarget (singleAxisCfg sc fs fr cp ep mp st cyc) HomingPhase.FastApproach true
    ((List.range (singleAxisCfg sc fs fr cp ep mp st cyc).numberAxis).foldl
      (planAxis (singleAxisCfg sc fs fr cp ep mp st cyc) 1 HomingPhase.FastApproach true)
      (planInit mpos)) 0 = 200 * sc
  rw [hfold]
  rw [scaleTarget_fast_approach _ _ _ hb, planAxis_target, planAxis_rates,
    planAxis_limitingRate _ _ _ _ _ _ hact, if_pos hgt, if_pos ⟨rfl, hact⟩,
    if_pos ⟨rfl, hact⟩]
  have htv : tval (singleAxisCfg sc fs fr cp ep mp st cyc) HomingPhase.FastApproach true 0 =
      (200 : ℚ) := by
    rw [tval_fast]
    norm_num
    rfl
  have hrv : rval (singleAxisCfg sc fs fr cp ep mp st cyc) HomingPhase.FastApproach 0 =
      (500 : ℚ) := by
    rw [rval_fast]
    rfl
  rw [htv, hrv]
  norm_num
  rfl

theorem single_axis_fast_feedRateSq (sc fs fr cp ep mp : ℚ) (st cyc : Nat)
    (mpos : Nat → ℚ) :
    (plan_move (singleAxisCfg sc fs fr cp ep mp st cyc) mpos 1
      HomingPhase.FastApproach true).feedRateSq = 250000 := by
  have hact : axisActive 1 0 = true := by decide
  have hfold : (List.range (singleAxisCfg sc fs fr cp ep mp st cyc).numberAxis).foldl
      (planAxis (singleAxisCfg sc fs fr cp ep mp st cyc) 1 HomingPhase.FastApproach true)
      (planInit mpos) =
      planAxis (singleAxisCfg sc fs fr cp ep mp st cyc) 1 HomingPhase.FastApproach true
        (planInit mpos) 0 := rfl
  show ((List.range (singleAxisCfg sc fs fr cp ep mp st cyc).numberAxis).foldl
    (planAxis (singleAxisCfg sc fs fr cp ep mp st cyc) 1 HomingPhase.FastApproach true)
    (planInit mpos)).rateSq = 250000
  rw [hfold, planAxis_rateSq, if_pos hact]
  have hrv : rval (singleAxisCfg sc fs fr cp ep mp st cyc) HomingPhase.FastApproach 0 =
      (500 : ℚ) := by
    rw [rval_fast]
    rfl
  rw [hrv]
  norm_num [planInit]

/-- C8 (counterexample).  Axis 0 of `cfgA` has seek rate 500, travel
limit 200, positive homing direction and seek scaler 11/10.  During
FastApproach the planned target is +220 = +200 × (11/10), not
-200 × (11/10) = -220: with a positive direction and the approach flag
set, `positiveDirection ^ _approach` is false, so the target is NOT
negated. -/
theorem plan_move_fast_scenario_sign_counterexample :
    (plan_move cfgA (fun _ => 0) 1 HomingPhase.FastApproach true).target 0 = 220 ∧
    ¬((220 : ℚ) = -(200 * (11/10))) := by
  constructor
  · have hc : cfgA = singleAxisCfg (mkRat 11 10) (mkRat 12 10) 100 2 0 0 250 1 := rfl
    rw [hc, single_axis_fast_target, Rat.mkRat_eq_div]
    norm_num
  · norm_num

/-- C8 (amended).  For a single active axis with seek rate 500, travel
limit 200 and positive homing direction, FastApproach with the approach
flag set plans target +200 × seekScale (the target is negated only when
the homing direction XOR the approach flag is true, which here is
false) and submits feed rate 500. -/
theorem plan_move_fast_single_axis_scenario (sc fs fr cp ep mp : ℚ) (st cyc : Nat)
    (mpos : Nat → ℚ) :
    (plan_move (singleAxisCfg sc fs fr cp ep mp st cyc) mpos 1
      HomingPhase.FastApproach true).target 0 = 200 * sc ∧
    Real.sqrt (((plan_move (singleAxisCfg sc fs fr cp ep mp st cyc) mpos 1
      HomingPhase.FastApproach true).feedRateSq : ℚ) : ℝ) = 500 := by
  refine ⟨single_axis_fast_target sc fs fr cp ep mp st cyc mpos, ?_⟩
  rw [single_axis_fast_feedRateSq sc fs fr cp ep mp st cyc mpos]
  have hc : (((250000 : ℚ) : ℝ)) = 500 ^ 2 := by norm_num
  rw [hc, Real.sqrt_sq (by norm_num)]

theorem cyclesLoop_alarm (cfg : AxesCfg) (fails : Nat → Bool) (rem cycle : Nat)
    (sh : Bool) :
    (cyclesLoop cfg fails rem cycle sh true).1 = [] ∧
    (cyclesLoop cfg fails rem cycle sh true).2.1 = sh := by
  cases rem <;> simp [cyclesLoop]

/-- Induction invariant of the all-cycles loop when the alarm state is
clear: the cycles run are the matching cycles of the remaining range,
truncated after the first failing one, and the "no cycle matched" outcome
(loop finished, `someAxisHomed` still false) holds iff the incoming flag
was false and no cycle in the remaining range matches. -/
theorem cyclesLoop_spec (cfg : AxesCfg) (fails : Nat → Bool) (rem : Nat) :
    ∀ (cycle : Nat) (sh : Bool),
    (cyclesLoop cfg fails rem cycle sh false).1 =
      takeThroughFail fails ((List.range' cycle rem).filter
        (fun c => decide (axis_mask_from_cycle cfg c ≠ 0))) ∧
    ((!(cyclesLoop cfg fails rem cycle sh false).2.2.2 &&
      !(cyclesLoop cfg fails rem cycle sh false).2.1) =
      (!sh && ((List.range' cycle rem).filter
        (fun c => decide (axis_mask_from_cycle cfg c ≠ 0))).isEmpty)) := by
  induction rem with
  | zero =>
    intro cycle sh
    simp [cyclesLoop, takeThroughFail]
  | succ rem ih =>
    intro cycle sh
    rw [List.range'_succ]
    simp only [cyclesLoop, Bool.false_eq_true, if_false]
    by_cases ham : axis_mask_from_cycle cfg cycle ≠ 0
    · rw [if_pos ham, List.filter_cons_of_pos (by simpa using ham)]
      by_cases hf : fails cycle
      · obtain ⟨hr1, hr2⟩ := cyclesLoop_alarm cfg fails rem (cycle + 1) true
        rw [takeThroughFail, if_pos hf, hf]
        constructor
        · rw [hr1]
        · rw [hr2]
          simp
      · have hf' : fails cycle = false := by simpa using hf
        rw [takeThroughFail, if_neg hf, hf']
        constructor
        · exact congrArg (cycle :: ·) (ih (cycle + 1) true).1
        · rw [(ih (cycle + 1) true).2]
          simp
    · rw [if_neg ham, List.filter_cons_of_neg (by simpa using ham)]
      exact ih (cycle + 1) sh

theorem takeThroughFail_sublist (fails : Nat → Bool) (l : List Nat) :
    (takeThroughFail fails l).Sublist l := by
  induction l with
  | nil => exact List.Sublist.refl []
  | cons c cs ih =>
    rw [takeThroughFail]
    by_cases hf : fails c
    · rw [if_pos hf]
      exact List.Sublist.cons₂ c (List.nil_sublist cs)
    · rw [if_neg hf]
      exact List.Sublist.cons₂ c ih

/-- C7.  The all-cycles branch of `run_cycles`, entered with the alarm
state clear, runs exactly the cycle numbers in `[1, MAX_N_AXIS]` (in
increasing order) whose axis set is non-empty, truncated after the first
failing cycle (later cycles are abandoned), and raises the
no-homing-cycles-defined alarm iff no cycle number matched any axis. -/
theorem run_cycles_all_characterization (cfg : AxesCfg) (fails : Nat → Bool) :
    (run_cycles_all cfg fails false).cyclesRun =
      takeThroughFail fails ((List.range' 1 MAX_N_AXIS).filter
        (fun c => decide (axis_mask_from_cycle cfg c ≠ 0))) ∧
    ((run_cycles_all cfg fails false).noCyclesAlarm = true ↔
      ((List.range' 1 MAX_N_AXIS).filter
        (fun c => decide (axis_mask_from_cycle cfg c ≠ 0))) = []) ∧
    List.Pairwise (· < ·) (run_cycles_all cfg fails false).cyclesRun := by
  obtain ⟨h1, h2⟩ := cyclesLoop_spec cfg fails MAX_N_AXIS 1 false
  refine ⟨h1, ?_, ?_⟩
  · show (!(cyclesLoop cfg fails MAX_N_AXIS 1 false false).2.2.2 &&
      !(cyclesLoop cfg fails MAX_N_AXIS 1 false false).2.1) = true ↔ _
    rw [h2]
    simp [List.isEmpty_iff]
  · show List.Pairwise (· < ·) (cyclesLoop cfg fails MAX_N_AXIS 1 false false).1
    rw [h1]
    exact List.Pairwise.sublist (takeThroughFail_sublist fails _)
      (List.Pairwise.filter _ (List.pairwise_lt_range' 1 MAX_N_AXIS))

/-- A two-axis machine reusing `acA` for both axes. -/
def cfgB : AxesCfg where
  numberAxis := 2
  axis := fun _ => acA
  homingMask := 3
  motorsOf := fun m => m

/-- An iteration in which the axis-0 motor-0 limit switch becomes active
and no realtime flag is raised. -/
def envLimitHit : RTInput :=
  { statusReport := false, reset := false, safetyDoor := false, cycleStop := true,
    posLimitMask := 1, negLimitMask := 0 }

/-- A cycle environment under which every phase of the single-axis cycle
terminates successfully: approaches end when the limit switch removes the
motor, pull-offs end with a clean cycle-stop. -/
def cenvOk : CycleEnv where
  mposAt := fun _ _ => 0
  limitsAt := fun _ => 0
  inputs := fun p =>
    if approachOf p then
      [{ statusReport := false, reset := false, safetyDoor := false, cycleStop := false,
         posLimitMask := 1, negLimitMask := 0 }]
    else [envCycleStop]

theorem plan_move_feed_rate_euclidean_witness :
    (∃ i, i < cfgA.numberAxis ∧ axisActive 1 i = true) ∧
    (Real.sqrt (((plan_move cfgA (fun _ => 0) 1 HomingPhase.FastApproach
        true).feedRateSq : ℚ) : ℝ) =
      Real.sqrt (∑ i ∈ activeAxes cfgA 1,
        ((rval cfgA HomingPhase.FastApproach i : ℚ) : ℝ) ^ 2) ∧
     (∀ a : Nat, activeAxes cfgA 1 = {a} → 0 ≤ rval cfgA HomingPhase.FastApproach a →
       Real.sqrt (((plan_move cfgA (fun _ => 0) 1 HomingPhase.FastApproach
         true).feedRateSq : ℚ) : ℝ) = ((rval cfgA HomingPhase.FastApproach a : ℚ) : ℝ))) :=
  ⟨⟨0, by decide, by decide⟩,
    plan_move_feed_rate_euclidean cfgA (fun _ => 0) 1 HomingPhase.FastApproach true
      ⟨0, by decide, by decide⟩⟩

theorem plan_move_fast_approach_targets_witness :
    (∀ i, i < cfgA.numberAxis → axisActive 1 i = true →
      0 < (cfgA.axis i).homing.seekRate ∧ 0 ≤ (cfgA.axis i).maxTravel ∧
        0 ≤ (cfgA.axis i).homing.seek_scaler) ∧
    (∃ j, j < cfgA.numberAxis ∧ axisActive 1 j = true ∧ 0 < (cfgA.axis j).maxTravel) ∧
    ((∀ i, i < cfgA.numberAxis → axisActive 1 i = true →
      |(plan_move cfgA (fun _ => 0) 1 HomingPhase.FastApproach true).target i| =
        (cfgA.axis i).maxTravel * (cfgA.axis i).homing.seek_scaler *
          ((cfgA.axis i).homing.seekRate /
            (plan_move cfgA (fun _ => 0) 1 HomingPhase.FastApproach true).limitingRate)) ∧
    (∃ L, L < cfgA.numberAxis ∧ axisActive 1 L = true ∧
      (∀ i, i < cfgA.numberAxis → axisActive 1 i = true →
        (cfgA.axis i).maxTravel / (cfgA.axis i).homing.seekRate ≤
          (cfgA.axis L).maxTravel / (cfgA.axis L).homing.seekRate) ∧
      (plan_move cfgA (fun _ => 0) 1 HomingPhase.FastApproach true).limitingRate =
        (cfgA.axis L).homing.seekRate ∧
      (plan_move cfgA (fun _ => 0) 1 HomingPhase.FastApproach true).target L =
        (if Bool.xor (cfgA.axis L).homing.positiveDirection true then
          -(cfgA.axis L).maxTravel else (cfgA.axis L).maxTravel) *
          (cfgA.axis L).homing.seek_scaler)) :=
  ⟨by decide, ⟨0, by decide, by decide, by decide⟩,
    plan_move_fast_approach_targets cfgA (fun _ => 0) 1 (by decide)
      ⟨0, by decide, by decide, by decide⟩⟩

theorem run_approach_flag_lifecycle_witness :
    ((1 : MotorMask) ≠ 0) ∧
    (¬(HomingPhase.FastApproach = HomingPhase.PrePulloff ∧ (0 : MotorMask) &&& 1 = 0)) ∧
    ((run cfgA (fun _ => 0) false noFlags 0 1 HomingPhase.FastApproach [envReset]).plan =
      some (plan_move cfgA (fun _ => 0) 1 HomingPhase.FastApproach
        (approachOf HomingPhase.FastApproach)) ∧
     (∀ st, (run cfgA (fun _ => 0) false noFlags 0 1 HomingPhase.FastApproach
        [envReset]).outcome = RunOutcome.normal st →
       (run cfgA (fun _ => 0) false noFlags 0 1 HomingPhase.FastApproach
         [envReset]).approach = false) ∧
     (∀ a, (run cfgA (fun _ => 0) false noFlags 0 1 HomingPhase.FastApproach
        [envReset]).outcome = RunOutcome.alarmed a →
       (run cfgA (fun _ => 0) false noFlags 0 1 HomingPhase.FastApproach
         [envReset]).approach = approachOf HomingPhase.FastApproach)) :=
  ⟨by decide, by decide,
    run_approach_flag_lifecycle cfgA (fun _ => 0) false noFlags 0 1
      HomingPhase.FastApproach [envReset] (by decide) (by decide)⟩

theorem run_cycle_stop_handling_witness :
    ((1 : MotorMask) ≠ 0) ∧
    (¬(HomingPhase.Pulloff1 = HomingPhase.PrePulloff ∧ (0 : MotorMask) &&& 1 = 0)) ∧
    ((noFlags.cycleStop || envCycleStop.cycleStop) = true) ∧
    ((noFlags.reset || envCycleStop.reset) = false) ∧
    ((noFlags.safetyDoor || envCycleStop.safetyDoor) = false) ∧
    ((run cfgA (fun _ => 0) false noFlags 0 1 HomingPhase.Pulloff1
        [envCycleStop]).flags.cycleStop = false ∧
     (approachOf HomingPhase.Pulloff1 = true →
       (run cfgA (fun _ => 0) false noFlags 0 1 HomingPhase.Pulloff1
         [envCycleStop]).outcome = RunOutcome.alarmed ExecAlarm.HomingFailApproach) ∧
     (approachOf HomingPhase.Pulloff1 = false →
       (((envCycleStop.posLimitMask ||| envCycleStop.negLimitMask) &&& 1 ≠ 0 →
         (run cfgA (fun _ => 0) false noFlags 0 1 HomingPhase.Pulloff1
           [envCycleStop]).outcome = RunOutcome.alarmed ExecAlarm.HomingFailPulloff) ∧
        ((envCycleStop.posLimitMask ||| envCycleStop.negLimitMask) &&& 1 = 0 →
         (run cfgA (fun _ => 0) false noFlags 0 1 HomingPhase.Pulloff1
           [envCycleStop]).outcome = RunOutcome.normal
             (plan_move cfgA (fun _ => 0) 1 HomingPhase.Pulloff1
               (approachOf HomingPhase.Pulloff1)).settle)))) :=
  ⟨by decide, by decide, by decide, by decide, by decide,
    run_cycle_stop_handling cfgA (fun _ => 0) false noFlags 0 1 HomingPhase.Pulloff1
      envCycleStop [] (by decide) (by decide) (by decide) (by decide) (by decide)⟩

theorem run_one_cycle_pulloff2_iff_witness :
    ((run_one_cycle cfgA cenvOk false noFlags 1).alarm = none) ∧
    ((run_one_cycle cfgA cenvOk false noFlags 1).stuck = false) ∧
    ((run_one_cycle cfgA cenvOk false noFlags 1).phasesRun =
      phaseSequence cfgA (cfgA.motorsOf (1 &&& cfgA.homingMask)) ∧
     (HomingPhase.Pulloff2 ∈ (run_one_cycle cfgA cenvOk false noFlags 1).phasesRun ↔
       needsPulloff2 cfgA (cfgA.motorsOf (1 &&& cfgA.homingMask)) = true) ∧
     (needsPulloff2 cfgA (cfgA.motorsOf (1 &&& cfgA.homingMask)) = true ↔
       ∃ ax, ax < cfgA.numberAxis ∧
         (cfgA.motorsOf (1 &&& cfgA.homingMask)).testBit ax = true ∧
         (cfgA.motorsOf (1 &&& cfgA.homingMask)).testBit (ax + 16) = true ∧
         (cfgA.axis ax).extraPulloff ≠ 0)) :=
  ⟨by decide, by decide,
    run_one_cycle_pulloff2_iff cfgA cenvOk false noFlags 1 (by decide) (by decide)⟩

theorem run_alarm_flag_consumption_witness :
    ((run cfgA (fun _ => 0) false noFlags 0 1 HomingPhase.FastApproach
        [envReset]).outcome = RunOutcome.alarmed ExecAlarm.HomingFailReset) ∧
    (((ExecAlarm.HomingFailReset = ExecAlarm.HomingFailApproach ∨
        ExecAlarm.HomingFailReset = ExecAlarm.HomingFailPulloff) →
      (run cfgA (fun _ => 0) false noFlags 0 1 HomingPhase.FastApproach
        [envReset]).flags.cycleStop = false) ∧
     (ExecAlarm.HomingFailReset = ExecAlarm.HomingFailReset →
      (run cfgA (fun _ => 0) false noFlags 0 1 HomingPhase.FastApproach
        [envReset]).flags.reset = true) ∧
     (ExecAlarm.HomingFailReset = ExecAlarm.HomingFailDoor →
      (run cfgA (fun _ => 0) false noFlags 0 1 HomingPhase.FastApproach
        [envReset]).flags.safetyDoor = true)) :=
  ⟨by decide,
    run_alarm_flag_consumption cfgA (fun _ => 0) false noFlags 0 1
      HomingPhase.FastApproach [envReset] ExecAlarm.HomingFailReset (by decide)⟩

theorem plan_move_inactive_axes_untouched_witness :
    (axisActive 1 1 = false) ∧
    ((plan_move cfgB (fun _ => 5) 1 HomingPhase.FastApproach true).target 1 = 5 ∧
     (plan_move cfgB (fun _ => 5) 1 HomingPhase.FastApproach true).zeroedSteps.testBit 1 =
       false) :=
  ⟨by decide,
    plan_move_inactive_axes_untouched cfgB (fun _ => 5) 1 HomingPhase.FastApproach true 1
      (by decide)⟩

end FluidNC
